import Mathlib

/-
  Formal model of the moltbot web4-governance extension.

  Shallow embedding of:
  - src/extensions/web4-governance/src/audit.ts   (AuditChain: record, loadExisting, verify)
  - src/extensions/web4-governance/src/matchers.ts (validateRegexPattern, globToRegex,
    matchesList, matchesTarget, matchesRule)
  - src/extensions/web4-governance/src/r6.ts      (tool classification, credential patterns)
  - the PersistentRateLimiter code shown in src/extensions/web4-governance/README.md

  Conventions of the embedding:
  - SHA-256 truncated to 16 hex chars is abstracted as a parameter
    `h16 : String → String` (the code computes
    createHash("sha256").update(s).digest("hex").slice(0, 16)).
  - Ed25519 signing/verification (signing.ts: signData / verifySignature) is
    abstracted as parameters `sign : String → String → String` (data, privateKeyHex)
    and `sigVerify : String → String → String → Bool` (data, signatureHex, publicKeyHex).
  - JSON.parse of a log line followed by field access is abstracted as a parameter
    `parse : String → Option AuditRecord`; `none` covers both lines that throw in
    JSON.parse and lines whose parse result lacks the `provenance` object (in both
    situations the try/catch in AuditChain.verify reports "Record i: parse error"
    before the loop-local `prevHash` variable is updated).
  - JSON.stringify of an AuditRecord is modelled concretely by
    `serializeAuditRecord`, with the exact field insertion order of audit.ts
    (record literal order, with `signature` / `signingKeyId` appended last) and
    JSON.stringify's omission of undefined-valued fields and string escaping.
  - The per-session log file is a list of lines; AuditChain.record appends
    `line + "\n"` for each record, and serialized records contain no newline
    (theorem serializeAuditRecord_no_newline below), so the file content and the
    list of lines are in exact correspondence.
-/

/-- Tool categories from r6.ts (`type ToolCategory`). -/
inductive ToolCategory where
  | file_read
  | file_write
  | credential_access
  | command
  | network
  | delegation
  | state
  | mcp
  | unknown
deriving DecidableEq, Repr

/-- The string value of a ToolCategory (the TS type is a union of these literals). -/
def ToolCategory.str : ToolCategory → String
  | .file_read => "file_read"
  | .file_write => "file_write"
  | .credential_access => "credential_access"
  | .command => "command"
  | .network => "network"
  | .delegation => "delegation"
  | .state => "state"
  | .mcp => "mcp"
  | .unknown => "unknown"

/-- r6.ts `R6Rules`. -/
structure R6Rules where
  auditLevel : String
  constraints : List String
  policyEntityId : Option String
deriving DecidableEq, Repr

/-- r6.ts `R6Role` (`bindingType` is the literal "soft-lct"). -/
structure R6Role where
  sessionId : String
  agentId : Option String
  actionIndex : Nat
  bindingType : String
deriving DecidableEq, Repr

/-- r6.ts `R6RequestDetail`. -/
structure R6RequestDetail where
  toolName : String
  category : ToolCategory
  target : Option String
  targets : Option (List String)
  inputHash : String
deriving DecidableEq, Repr

/-- r6.ts `R6Reference`. -/
structure R6Reference where
  sessionId : String
  prevR6Id : Option String
  chainPosition : Nat
deriving DecidableEq, Repr

/-- r6.ts `R6Resource`. -/
structure R6Resource where
  estimatedTokens : Option Nat
  approvalRequired : Bool
deriving DecidableEq, Repr

/-- r6.ts `R6Request` (the `result?` field is not read by AuditChain.record). -/
structure R6Request where
  id : String
  timestamp : String
  rules : R6Rules
  role : R6Role
  request : R6RequestDetail
  reference : R6Reference
  resource : R6Resource
deriving DecidableEq, Repr

/-- audit.ts `AuditRecord["result"]`.  `status` is kept as a raw string because
verify parses records from arbitrary file content. -/
structure AuditResult where
  status : String
  outputHash : Option String
  errorMessage : Option String
  durationMs : Option Nat
deriving DecidableEq, Repr

/-- audit.ts `AuditRecord["provenance"]`. -/
structure AuditProvenance where
  sessionId : String
  actionIndex : Nat
  prevRecordHash : String
deriving DecidableEq, Repr

/-- audit.ts `AuditRecord`.  `category` is a raw string (the serialized value of
the ToolCategory union member). -/
structure AuditRecord where
  recordId : String
  r6RequestId : String
  timestamp : String
  tool : String
  category : String
  target : Option String
  targets : Option (List String)
  result : AuditResult
  provenance : AuditProvenance
  signature : Option String
  signingKeyId : Option String
deriving DecidableEq, Repr

/-- Lowercase hex digit, as emitted by JSON.stringify's \u00xx escapes. -/
def hexDigitChar (n : Nat) : Char :=
  if n < 10 then Char.ofNat (48 + n) else Char.ofNat (87 + n)

/-- JSON.stringify's escaping of a single string character: `"` and `\` get a
backslash, the named control escapes \b \t \n \f \r are used, all other
control characters (< U+0020) become \u00xx, everything else is verbatim. -/
def escChar (c : Char) : List Char :=
  if c = '"' then ['\\', '"']
  else if c = '\\' then ['\\', '\\']
  else if c = '\x08' then ['\\', 'b']
  else if c = '\t' then ['\\', 't']
  else if c = '\n' then ['\\', 'n']
  else if c = '\x0c' then ['\\', 'f']
  else if c = '\r' then ['\\', 'r']
  else if c.toNat < 32 then
    ['\\', 'u', '0', '0', hexDigitChar (c.toNat / 16), hexDigitChar (c.toNat % 16)]
  else [c]

/-- JSON.stringify's escaping applied to a whole string. -/
def jsonEscape (s : String) : String :=
  String.mk (s.data.foldr (fun c acc => escChar c ++ acc) [])

/-- A JSON string literal: quotes around the escaped content. -/
def jsonStr (s : String) : String :=
  "\"" ++ jsonEscape s ++ "\""

/-- An optional string field rendered with its leading comma; the empty string
when the field is undefined (JSON.stringify omits undefined-valued fields). -/
def optStrField (name : String) (v : Option String) : String :=
  match v with
  | none => ""
  | some s => "," ++ jsonStr name ++ ":" ++ jsonStr s

/-- One decimal digit character. -/
def decDigit (k : Nat) : Char :=
  Char.ofNat (48 + k)

/-- Decimal digits of n, most significant first (fuel-structured so that the
kernel can evaluate it). -/
def natDigitsAux : Nat → Nat → List Char
  | 0, _ => []
  | fuel + 1, n =>
      if n < 10 then [decDigit n]
      else natDigitsAux fuel (n / 10) ++ [decDigit (n % 10)]

/-- The decimal rendering of a natural number, as JSON.stringify prints a
non-negative integral JS number. -/
def natStr (n : Nat) : String :=
  String.mk (natDigitsAux (n + 1) n)

/-- An optional number field rendered with its leading comma. -/
def optNatField (name : String) (v : Option Nat) : String :=
  match v with
  | none => ""
  | some n => "," ++ jsonStr name ++ ":" ++ natStr n

/-- Comma-separated concatenation. -/
def joinComma : List String → String
  | [] => ""
  | [s] => s
  | s :: rest => s ++ "," ++ joinComma rest

/-- An optional string-array field rendered with its leading comma. -/
def optListField (name : String) (v : Option (List String)) : String :=
  match v with
  | none => ""
  | some l => "," ++ jsonStr name ++ ":[" ++ joinComma (l.map jsonStr) ++ "]"

/-- JSON.stringify of the `result` object, in declaration order. -/
def serializeAuditResult (r : AuditResult) : String :=
  "\x7b\"status\":" ++ jsonStr r.status
    ++ optStrField "outputHash" r.outputHash
    ++ optStrField "errorMessage" r.errorMessage
    ++ optNatField "durationMs" r.durationMs
    ++ "\x7d"

/-- JSON.stringify of the `provenance` object, in the literal order of audit.ts. -/
def serializeProvenance (p : AuditProvenance) : String :=
  "\x7b\"sessionId\":" ++ jsonStr p.sessionId
    ++ ",\"actionIndex\":" ++ natStr p.actionIndex
    ++ ",\"prevRecordHash\":" ++ jsonStr p.prevRecordHash
    ++ "\x7d"

/-- JSON.stringify of an AuditRecord: the field order is the record-literal order
of AuditChain.record, with `signature` and `signingKeyId` last because they are
assigned after the literal is built. -/
def serializeAuditRecord (r : AuditRecord) : String :=
  "\x7b\"recordId\":" ++ jsonStr r.recordId
    ++ ",\"r6RequestId\":" ++ jsonStr r.r6RequestId
    ++ ",\"timestamp\":" ++ jsonStr r.timestamp
    ++ ",\"tool\":" ++ jsonStr r.tool
    ++ ",\"category\":" ++ jsonStr r.category
    ++ optStrField "target" r.target
    ++ optListField "targets" r.targets
    ++ ",\"result\":" ++ serializeAuditResult r.result
    ++ ",\"provenance\":" ++ serializeProvenance r.provenance
    ++ optStrField "signature" r.signature
    ++ optStrField "signingKeyId" r.signingKeyId
    ++ "\x7d"

/-- audit.ts `SigningConfig`. -/
structure SigningConfig where
  privateKeyHex : String
  publicKeyHex : String
  keyId : String
deriving DecidableEq, Repr

/-- The record literal built at the top of AuditChain.record (before signing):
`recordId = "audit:" + r6.id.slice(3)`, fields drawn from the R6 request, and
`provenance.prevRecordHash` set to the chain's current prevHash. -/
def mkAuditRecord (sessionId prevHash : String) (r6 : R6Request) (result : AuditResult)
    (timestamp : String) : AuditRecord :=
  { recordId := "audit:" ++ r6.id.drop 3
    r6RequestId := r6.id
    timestamp := timestamp
    tool := r6.request.toolName
    category := r6.request.category.str
    target := r6.request.target
    targets := r6.request.targets
    result := result
    provenance :=
      { sessionId := sessionId
        actionIndex := r6.role.actionIndex
        prevRecordHash := prevHash }
    signature := none
    signingKeyId := none }

/-- The signing step of AuditChain.record: serialize the record before the
signature fields exist, sign those bytes, then populate both fields. -/
def signRecordWith (sign : String → String → String) (cfg : SigningConfig)
    (r : AuditRecord) : AuditRecord :=
  let dataToSign := serializeAuditRecord r
  { r with
    signature := some (sign dataToSign cfg.privateKeyHex)
    signingKeyId := some cfg.keyId }

/-- In-memory state of an AuditChain plus the records backing its log file:
the file content is `(log.map serializeAuditRecord)` joined with newlines. -/
structure ChainState where
  log : List AuditRecord
  prevHash : String
  recordCount : Nat
deriving Repr

/-- A fresh chain with no log file: `prevHash = "genesis"`. -/
def chainInit : ChainState :=
  { log := [], prevHash := "genesis", recordCount := 0 }

/-- AuditChain.record: build the record with the current prevHash, sign it if a
signing config is present, append its serialization to the log, then set
`prevHash = sha256(line)[:16]` and bump the count. -/
def chainRecord (h16 : String → String) (sign : String → String → String)
    (osig : Option SigningConfig) (sessionId : String) (st : ChainState)
    (r6 : R6Request) (result : AuditResult) (ts : String) :
    ChainState × AuditRecord :=
  let base := mkAuditRecord sessionId st.prevHash r6 result ts
  let recd := match osig with
    | none => base
    | some cfg => signRecordWith sign cfg base
  let line := serializeAuditRecord recd
  (⟨st.log ++ [recd], h16 line, st.recordCount + 1⟩, recd)

/-- AuditChain.loadExisting on a successfully-read log file: count the lines and
set `prevHash = sha256(last line)[:16]`; an absent/empty file keeps the genesis
defaults. -/
def chainReload (h16 : String → String) (st : ChainState) : ChainState :=
  { st with
    prevHash := match st.log.getLast? with
      | none => "genesis"
      | some r => h16 (serializeAuditRecord r)
    recordCount := st.log.length }

/-- The session logs reachable by AuditChain: a fresh chain, a record call, or a
chain reconstructed from the existing file by a new AuditChain instance. -/
inductive Produced (h16 : String → String) (sign : String → String → String)
    (osig : Option SigningConfig) (sessionId : String) : ChainState → Prop where
  | init : Produced h16 sign osig sessionId chainInit
  | step (st : ChainState) (r6 : R6Request) (result : AuditResult) (ts : String) :
      Produced h16 sign osig sessionId st →
      Produced h16 sign osig sessionId (chainRecord h16 sign osig sessionId st r6 result ts).1
  | reload (st : ChainState) :
      Produced h16 sign osig sessionId st →
      Produced h16 sign osig sessionId (chainReload h16 st)

/-- JS truthiness of an optional string field (undefined and "" are falsy). -/
def truthy : Option String → Bool
  | none => false
  | some s => s ≠ ""

/-- Strip the signature fields, as verify's destructuring
`const { signature: _, signingKeyId: __, ...unsignedRecord } = record` does. -/
def stripSig (r : AuditRecord) : AuditRecord :=
  { r with signature := none, signingKeyId := none }

/-- The exact error string verify pushes on a hash-chain mismatch. -/
def hashMismatchMsg (i : Nat) (expected got : String) : String :=
  s!"Record {i}: hash mismatch (expected {expected}, got {got})"

/-- The exact error string verify pushes on a failed signature check. -/
def invalidSigMsg (i : Nat) : String :=
  s!"Record {i}: invalid signature"

/-- The exact error string verify pushes when a line cannot be parsed. -/
def parseErrorMsg (i : Nat) : String :=
  s!"Record {i}: parse error"

/-- verify's signature statistics. -/
structure SigStats where
  signed : Nat
  verified : Nat
  unverified : Nat
  invalid : Nat
deriving DecidableEq, Repr

/-- verify's report. -/
structure VerifyReport where
  valid : Bool
  recordCount : Nat
  errors : List String
  signatureStats : SigStats
deriving DecidableEq, Repr

/-- The body of AuditChain.verify's for-loop.  Returns the final
(prevHash, errors, stats).  On a parse failure the loop-local prevHash is NOT
updated (the exception is thrown before the update).  The signature block runs
only when both `signature` and `signingKeyId` are truthy, and compares the
signature against the re-serialization of the record with both fields
stripped. -/
def verifyLoop (h16 : String → String) (sigVerify : String → String → String → Bool)
    (parse : String → Option AuditRecord) (pks : String → Option String) :
    Nat → String → List String → SigStats → List String →
    String × List String × SigStats
  | _, prevHash, errors, stats, [] => (prevHash, errors, stats)
  | i, prevHash, errors, stats, line :: rest =>
    match parse line with
    | none =>
        verifyLoop h16 sigVerify parse pks (i + 1) prevHash
          (errors ++ [parseErrorMsg i]) stats rest
    | some r =>
        let errors1 :=
          if r.provenance.prevRecordHash = prevHash then errors
          else errors ++ [hashMismatchMsg i prevHash r.provenance.prevRecordHash]
        let prevHash1 := h16 line
        if truthy r.signature && truthy r.signingKeyId then
          let stats1 := { stats with signed := stats.signed + 1 }
          match pks (r.signingKeyId.getD "") with
          | some pk =>
              if sigVerify (serializeAuditRecord (stripSig r)) (r.signature.getD "") pk then
                verifyLoop h16 sigVerify parse pks (i + 1) prevHash1 errors1
                  { stats1 with verified := stats1.verified + 1 } rest
              else
                verifyLoop h16 sigVerify parse pks (i + 1) prevHash1
                  (errors1 ++ [invalidSigMsg i])
                  { stats1 with invalid := stats1.invalid + 1 } rest
          | none =>
              verifyLoop h16 sigVerify parse pks (i + 1) prevHash1 errors1
                { stats1 with unverified := stats1.unverified + 1 } rest
        else
          verifyLoop h16 sigVerify parse pks (i + 1) prevHash1 errors1 stats rest

/-- AuditChain.verify applied to a list of log lines: run the loop from
("genesis", no errors, zero stats); `valid ⇔ errors empty`,
`recordCount = lines.length`. -/
def verifyLines (h16 : String → String) (sigVerify : String → String → String → Bool)
    (parse : String → Option AuditRecord) (pks : String → Option String)
    (lines : List String) : VerifyReport :=
  let out := verifyLoop h16 sigVerify parse pks 0 "genesis" [] ⟨0, 0, 0, 0⟩ lines
  { valid := out.2.1.isEmpty
    recordCount := lines.length
    errors := out.2.1
    signatureStats := out.2.2 }

/-- JS whitespace recognized by String.prototype.trim (the ASCII part plus
NBSP, BOM and the U+2028/U+2029 line terminators). -/
def jsTrimWs (c : Char) : Bool :=
  c = ' ' || c = '\t' || c = '\n' || c = '\r' || c = '\x0b' || c = '\x0c' ||
    c.toNat = 0xa0 || c.toNat = 0xfeff || c.toNat = 0x2028 || c.toNat = 0x2029

/-- JS `content.trim()`: strip whitespace from both ends. -/
def jsTrim (s : String) : String :=
  String.mk (((s.data.dropWhile jsTrimWs).reverse.dropWhile jsTrimWs).reverse)

/-- JS `content.split("\n")` on a character list. -/
def splitNl : List Char → List (List Char)
  | [] => [[]]
  | c :: rest =>
      if c = '\n' then [] :: splitNl rest
      else
        match splitNl rest with
        | [] => [[c]]
        | g :: gs => (c :: g) :: gs

/-- JS `content.split("\n")` producing strings. -/
def splitLinesStr (s : String) : List String :=
  (splitNl s.data).map String.mk

/-- AuditChain.verify on raw file content: `none` is a missing file; existing
content is trimmed and, when the trim is empty, the early-return report is
produced; otherwise the trimmed content is split on newlines and verified. -/
def verifyChain (h16 : String → String) (sigVerify : String → String → String → Bool)
    (parse : String → Option AuditRecord) (pks : String → Option String)
    (content : Option String) : VerifyReport :=
  match content with
  | none => { valid := true, recordCount := 0, errors := [], signatureStats := ⟨0, 0, 0, 0⟩ }
  | some c =>
      if jsTrim c = "" then
        { valid := true, recordCount := 0, errors := [], signatureStats := ⟨0, 0, 0, 0⟩ }
      else
        verifyLines h16 sigVerify parse pks (splitLinesStr (jsTrim c))

/-
  matchers.ts — globToRegex and the regex runtime.

  globToRegex compiles a glob pattern to a JS regex string built from the
  fragments ".*" (for "**"), "[^/]*" (for "*"), "[^/]" (for "?"), "\c" (for the
  escaped metacharacters . + ^ $ \x7b \x7d ( ) | [ ] \) and verbatim characters,
  anchored as "^…$".  We embed the compiled regex as a list of atoms and give
  the atoms their JS matching semantics:
  - `anyRun` is ".*": any run of characters EXCLUDING the JS line terminators
    (\n, \r, U+2028, U+2029) — "." without the s flag does not match them;
  - `nonSlashRun` is "[^/]*", `nonSlashOne` is "[^/]": negated classes DO match
    line terminators, they exclude only '/';
  - `lit c` covers both the escaped-metacharacter branch ("\c") and the
    verbatim branch, which denote the same literal-character regex;
  - `nonSlashPlus` is "[^/]+" and `optChar c` is "c?" (used by the credential
    patterns of r6.ts below).
  Matching is the regex backtracking semantics: a full (anchored) match exists
  iff some decomposition works, which the recursive `ratomMatch` computes.
-/

/-- One atom of a compiled regex. -/
inductive RAtom where
  | lit (c : Char)
  | anyRun
  | nonSlashRun
  | nonSlashOne
  | nonSlashPlus
  | optChar (c : Char)
deriving DecidableEq, Repr

/-- JS line terminators, which "." does not match. -/
def isLineTerminator (c : Char) : Bool :=
  c = '\n' || c = '\r' || c.toNat = 0x2028 || c.toNat = 0x2029

/-- Drop one leading '/' if present (the "skip trailing slash after **" step). -/
def dropLeadSlash : List Char → List Char
  | '/' :: rest => rest
  | rest => rest

theorem dropLeadSlash_length_le (l : List Char) : (dropLeadSlash l).length ≤ l.length := by
  cases l with
  | nil => simp [dropLeadSlash]
  | cons c rest =>
      simp only [dropLeadSlash]
      split <;> simp_all

/-- Anchored match of a list of regex atoms against a list of characters
(standard backtracking semantics). -/
def ratomMatch : List RAtom → List Char → Bool
  | [], [] => true
  | [], _ :: _ => false
  | .lit _ :: _, [] => false
  | .lit c :: as, x :: xs => x = c && ratomMatch as xs
  | .nonSlashOne :: _, [] => false
  | .nonSlashOne :: as, x :: xs => x ≠ '/' && ratomMatch as xs
  | .optChar _ :: as, [] => ratomMatch as []
  | .optChar c :: as, x :: xs =>
      (x = c && ratomMatch as xs) || ratomMatch as (x :: xs)
  | .nonSlashPlus :: _, [] => false
  | .nonSlashPlus :: as, x :: xs => x ≠ '/' && ratomMatch (.nonSlashRun :: as) xs
  | .nonSlashRun :: as, [] => ratomMatch as []
  | .nonSlashRun :: as, x :: xs =>
      ratomMatch as (x :: xs) || (x ≠ '/' && ratomMatch (.nonSlashRun :: as) xs)
  | .anyRun :: as, [] => ratomMatch as []
  | .anyRun :: as, x :: xs =>
      ratomMatch as (x :: xs) || (!isLineTerminator x && ratomMatch (.anyRun :: as) xs)
termination_by as s => as.length + s.length

/-- Unanchored-start search (regex `test` without a leading anchor): try an
end-anchored match at every start position. -/
def ratomSearch (as : List RAtom) : List Char → Bool
  | [] => ratomMatch as []
  | x :: xs => ratomMatch as (x :: xs) || ratomSearch as xs

/-- globToRegex's compilation loop: "**" (absorbing one following '/') becomes
".*", "*" becomes "[^/]*", "?" becomes "[^/]", metacharacters are escaped, and
everything else is copied verbatim; escaped and verbatim characters both denote
the literal character. -/
def globAtoms : List Char → List RAtom
  | [] => []
  | [c] =>
      if c = '*' then [.nonSlashRun]
      else if c = '?' then [.nonSlashOne]
      else [.lit c]
  | c :: c2 :: rest =>
      if c = '*' then
        if c2 = '*' then .anyRun :: globAtoms (dropLeadSlash rest)
        else .nonSlashRun :: globAtoms (c2 :: rest)
      else if c = '?' then .nonSlashOne :: globAtoms (c2 :: rest)
      else .lit c :: globAtoms (c2 :: rest)
termination_by p => p.length
decreasing_by
  all_goals simp_wf
  all_goals (have h1 := dropLeadSlash_length_le rest; omega)

/-- `globToRegex(p).test(s)`: the anchored compiled regex matched against s. -/
def globMatches (p s : String) : Bool :=
  ratomMatch (globAtoms p.data) s.data

/-- Glob matching as the spec's §4.1 words describe it: `?` = one non-`/` char,
`*` = any run of non-`/` chars, `**` = any run including `/` (optionally
absorbing one trailing `/` of the pattern), all other characters literal,
full-string anchored.  "Any run" is unrestricted here: the spec does not
exclude any character from `**`. -/
def specGlobMatch : List Char → List Char → Bool
  | [], s => s.isEmpty
  | [c], s =>
      if c = '*' then
        specGlobMatch [] s ||
          (match s with
           | [] => false
           | x :: xs => x ≠ '/' && specGlobMatch [c] xs)
      else if c = '?' then
        match s with
        | [] => false
        | x :: xs => x ≠ '/' && specGlobMatch [] xs
      else
        match s with
        | [] => false
        | x :: xs => x = c && specGlobMatch [] xs
  | c :: c2 :: pr, s =>
      if c = '*' then
        if c2 = '*' then
          specGlobMatch (dropLeadSlash pr) s ||
            (match s with
             | [] => false
             | _ :: xs => specGlobMatch (c :: c2 :: pr) xs)
        else
          specGlobMatch (c2 :: pr) s ||
            (match s with
             | [] => false
             | x :: xs => x ≠ '/' && specGlobMatch (c :: c2 :: pr) xs)
      else if c = '?' then
        match s with
        | [] => false
        | x :: xs => x ≠ '/' && specGlobMatch (c2 :: pr) xs
      else
        match s with
        | [] => false
        | x :: xs => x = c && specGlobMatch (c2 :: pr) xs
termination_by p s => p.length + s.length
decreasing_by
  all_goals simp_wf
  all_goals try omega
  all_goals (have h1 := dropLeadSlash_length_le pr; omega)

/-- Glob matching as the spec describes it, amended for the JS "." semantics:
a `**` run cannot cross a line terminator (\n, \r, U+2028, U+2029), because the
compiled fragment ".*" is dot-based and the regex has no `s` flag.  `*` and `?`
compile to negated classes and still match line terminators. -/
def specGlobMatchJs : List Char → List Char → Bool
  | [], s => s.isEmpty
  | [c], s =>
      if c = '*' then
        specGlobMatchJs [] s ||
          (match s with
           | [] => false
           | x :: xs => x ≠ '/' && specGlobMatchJs [c] xs)
      else if c = '?' then
        match s with
        | [] => false
        | x :: xs => x ≠ '/' && specGlobMatchJs [] xs
      else
        match s with
        | [] => false
        | x :: xs => x = c && specGlobMatchJs [] xs
  | c :: c2 :: pr, s =>
      if c = '*' then
        if c2 = '*' then
          specGlobMatchJs (dropLeadSlash pr) s ||
            (match s with
             | [] => false
             | x :: xs => !isLineTerminator x && specGlobMatchJs (c :: c2 :: pr) xs)
        else
          specGlobMatchJs (c2 :: pr) s ||
            (match s with
             | [] => false
             | x :: xs => x ≠ '/' && specGlobMatchJs (c :: c2 :: pr) xs)
      else if c = '?' then
        match s with
        | [] => false
        | x :: xs => x ≠ '/' && specGlobMatchJs (c2 :: pr) xs
      else
        match s with
        | [] => false
        | x :: xs => x = c && specGlobMatchJs (c2 :: pr) xs
termination_by p s => p.length + s.length
decreasing_by
  all_goals simp_wf
  all_goals try omega
  all_goals (have h1 := dropLeadSlash_length_le pr; omega)

/-- Spec-side glob match on strings. -/
def specGlobMatches (p s : String) : Bool :=
  specGlobMatch p.data s.data

/-- Spec-side glob match on strings, with the JS dot semantics for `**`. -/
def specGlobMatchesJs (p s : String) : Bool :=
  specGlobMatchJs p.data s.data

/-
  r6.ts — tool classification and credential-target detection.
-/

/-- r6.ts `TOOL_CATEGORIES`, as an association list in declaration order. -/
def TOOL_CATEGORIES : List (String × ToolCategory) :=
  [("Read", .file_read), ("Glob", .file_read), ("Grep", .file_read),
   ("Write", .file_write), ("Edit", .file_write), ("NotebookEdit", .file_write),
   ("Bash", .command),
   ("WebFetch", .network), ("WebSearch", .network),
   ("Task", .delegation),
   ("TodoWrite", .state)]

/-- Lookup in TOOL_CATEGORIES (JS object property access, modelled as a map). -/
def toolCategoriesLookup (toolName : String) : Option ToolCategory :=
  (TOOL_CATEGORIES.find? (fun p => p.1 = toolName)).map (·.2)

/-- r6.ts `classifyTool`: `TOOL_CATEGORIES[toolName] ?? "unknown"`. -/
def classifyTool (toolName : String) : ToolCategory :=
  (toolCategoriesLookup toolName).getD .unknown

/-- Literal atoms for a (lowercase) pattern fragment. -/
def litAtoms (s : String) : List RAtom :=
  s.data.map .lit

/-- r6.ts `CREDENTIAL_PATTERNS`, compiled to atoms.  Every pattern is
end-anchored (`$`) and unanchored at the start, and carries the `i` flag;
matching is performed on the lowercased target, so literals are lowercase. -/
def CREDENTIAL_PATTERNS : List (List RAtom) :=
  [litAtoms ".env",
   litAtoms ".env." ++ [.nonSlashPlus],
   litAtoms "credentials." ++ [.nonSlashPlus],
   litAtoms "secret" ++ [.optChar 's'] ++ litAtoms "." ++ [.nonSlashPlus],
   litAtoms ".aws/credentials",
   litAtoms ".ssh/id_" ++ [.nonSlashPlus],
   litAtoms ".ssh/known_hosts",
   litAtoms ".netrc",
   litAtoms ".pgpass",
   litAtoms ".npmrc",
   litAtoms ".pypirc",
   litAtoms "token" ++ [.nonSlashRun] ++ litAtoms ".json",
   litAtoms "auth" ++ [.nonSlashRun] ++ litAtoms ".json",
   litAtoms "apikey" ++ [.nonSlashRun]]

/-- A pattern with a trailing `$`: matched so that the match ends at the end of
the string, starting anywhere (`pattern.test(target)`). -/
def patTestEnd (pat : List RAtom) (cs : List Char) : Bool :=
  ratomSearch pat cs

/-- r6.ts `isCredentialTarget`: false for undefined/empty target (JS
truthiness), otherwise some credential pattern matches case-insensitively. -/
def isCredentialTarget (target : Option String) : Bool :=
  match target with
  | none => false
  | some t =>
      if t = "" then false
      else CREDENTIAL_PATTERNS.any (fun pat => patTestEnd pat (t.data.map Char.toLower))

/-- r6.ts `classifyToolWithTarget`: escalate `file_read`/`file_write` to
`credential_access` when the target matches a credential pattern.  The
`baseCategory` local of the source is the body of `classifyTool`. -/
def classifyToolWithTarget (toolName : String) (target : Option String) : ToolCategory :=
  if (classifyTool toolName = .file_read || classifyTool toolName = .file_write)
      && isCredentialTarget target then
    .credential_access
  else
    classifyTool toolName

/-
  matchers.ts — validateRegexPattern.

  The three detector regexes are embedded as direct string scanners.  Since
  their character classes exclude exactly the closing delimiter they look for,
  the backtracking match of each regex is equivalent to a first-delimiter scan,
  which is what the scanners below compute.
-/

/-- Scanner for /\([^)]*[*+]\)[*+?]|\([^)]*[*+?]\)\x7b/ starting just after a
'(': walk to the first ')' keeping the previous character; a match needs the
character before ')' in [*+] and the character after in [*+?], or the character
before in [*+?] and the character after equal to '\x7b'. -/
def nestedAfterParen : List Char → Option Char → Bool
  | [], _ => false
  | c :: rest, prev =>
      if c = ')' then
        match prev, rest with
        | some q, d :: _ =>
            ((q = '*' || q = '+') && (d = '*' || d = '+' || d = '?')) ||
            ((q = '*' || q = '+' || q = '?') && d = '\x7b')
        | _, _ => false
      else nestedAfterParen rest (some c)

/-- `nestedQuantifier.test(pattern)`: try at every '('. -/
def nestedQuantScan : List Char → Bool
  | [] => false
  | c :: rest =>
      (if c = '(' then nestedAfterParen rest none else false) || nestedQuantScan rest

/-- After the '|' of a candidate overlapping alternation: collect the second
alternative up to the first ')' (failing on a second '|'), and require a
following '*' or '+'. -/
def overlapAlt2 : List Char → List Char → List Char → Option (List Char × List Char)
  | [], _, _ => none
  | c :: rest, acc, a1 =>
      if c = ')' then
        if acc.isEmpty then none
        else
          match rest with
          | d :: _ => if d = '*' || d = '+' then some (a1, acc) else none
          | [] => none
      else if c = '|' then none
      else overlapAlt2 rest (acc ++ [c]) a1

/-- After a '(' of a candidate overlapping alternation: collect the first
alternative up to the first '|' (failing on a ')'). -/
def overlapAlt1 : List Char → List Char → Option (List Char × List Char)
  | [], _ => none
  | c :: rest, acc =>
      if c = '|' then
        if acc.isEmpty then none else overlapAlt2 rest [] acc
      else if c = ')' then none
      else overlapAlt1 rest (acc ++ [c])

/-- The leftmost match of /\(([^|)]+)\|([^|)]+)\)[*+]/, returning the two
captured alternatives (pattern.match(...) in the overlapping-alternation
branch); `none` exactly when `overlappingAlt.test(pattern)` is false. -/
def overlapFirstMatch : List Char → Option (List Char × List Char)
  | [] => none
  | c :: rest =>
      if c = '(' then
        match overlapAlt1 rest [] with
        | some r => some r
        | none => overlapFirstMatch rest
      else overlapFirstMatch rest

/-- JS \s (whitespace class), restricted to the ASCII whitespace that can
appear here. -/
def isJsWhitespace (c : Char) : Bool :=
  c = ' ' || c = '\t' || c = '\n' || c = '\r' || c = '\x0c' || c = '\x0b'

/-- After the first '\x7d' closing a quantifier: skip \s*, then require '\x7b'. -/
def chainSkipWs : List Char → Bool
  | [] => false
  | c :: rest => if isJsWhitespace c then chainSkipWs rest else c = '\x7b'

/-- After a '\x7b': walk to the first '\x7d', requiring at least one character in
between, then \s* and another '\x7b'. -/
def chainAfterBrace : List Char → Bool → Bool
  | [], _ => false
  | c :: rest, seen =>
      if c = '\x7d' then seen && chainSkipWs rest
      else chainAfterBrace rest true

/-- `quantifierChain.test(pattern)`: /\x7b[^\x7d]+\x7d\s*\x7b/ tried at every '\x7b'. -/
def quantChainScan : List Char → Bool
  | [] => false
  | c :: rest =>
      (if c = '\x7b' then chainAfterBrace rest false else false) || quantChainScan rest

/-- validateRegexPattern's result. -/
inductive RegexValidation where
  | valid
  | invalid (reason : String)
deriving DecidableEq, Repr

/-- Whether a validation result is a rejection. -/
def RegexValidation.isInvalid : RegexValidation → Bool
  | .valid => false
  | .invalid _ => true

/-- matchers.ts `validateRegexPattern`.  The final `new RegExp(pattern)` success
test is abstracted as the parameter `compilesOk` (its reason embeds the JS
engine's message, abstracted here as a fixed string).  Check order as in the
source: nested quantifiers, overlapping alternation (invalid only when one of
the two leading captured alternatives is `.*` or `.+`, otherwise fall
through), chained quantifiers, length > 500, compilation. -/
def validateRegexPattern (compilesOk : String → Bool) (pattern : String) :
    RegexValidation :=
  if nestedQuantScan pattern.data then
    .invalid "Nested quantifiers detected (potential ReDoS)"
  else if (match overlapFirstMatch pattern.data with
           | some (a1, a2) =>
               a1 = ".*".data || a1 = ".+".data || a2 = ".*".data || a2 = ".+".data
           | none => false) then
    .invalid "Overlapping alternations with wildcards (potential ReDoS)"
  else if quantChainScan pattern.data then
    .invalid "Chained quantifiers detected (potential ReDoS)"
  else if pattern.length > 500 then
    .invalid "Pattern too long (max 500 characters)"
  else if !compilesOk pattern then
    .invalid "Invalid regex"
  else
    .valid

/-
  policy-types.ts `PolicyMatch` and matchers.ts rule matching.
-/

/-- policy-types.ts `PolicyMatch` (the rateLimit / timeWindow clauses are not
read by matchesRule and are omitted). -/
structure PolicyMatch where
  tools : Option (List String)
  categories : Option (List String)
  targetPatterns : Option (List String)
  targetPatternsAreRegex : Option Bool
deriving DecidableEq, Repr

/-- matchers.ts `matchesList`: `list.includes(value)`. -/
def matchesList (value : String) (list : List String) : Bool :=
  list.contains value

/-- matchers.ts `matchesTarget`: false when the target is undefined, else any
pattern matches — with `new RegExp(pattern).test(target)` abstracted as the
parameter `regexTest` in regex mode, and the compiled glob in glob mode. -/
def matchesTarget (regexTest : String → String → Bool) (target : Option String)
    (patterns : List String) (useRegex : Bool) : Bool :=
  match target with
  | none => false
  | some t =>
      patterns.any (fun pat => if useRegex then regexTest pat t else globMatches pat t)

/-- matchers.ts `matchesRule`: each present criterion must match (AND).  A
`targetPatterns` list is truthy whenever present (JS arrays, even empty, are
truthy). -/
def matchesRule (regexTest : String → String → Bool) (toolName : String)
    (category : ToolCategory) (target : Option String) (m : PolicyMatch) : Bool :=
  match m.tools with
  | some tools =>
      if !matchesList toolName tools then false
      else matchesRuleAfterTools regexTest category target m
  | none => matchesRuleAfterTools regexTest category target m
where
  matchesRuleAfterTools (regexTest : String → String → Bool) (category : ToolCategory)
      (target : Option String) (m : PolicyMatch) : Bool :=
    match m.categories with
    | some cats =>
        if !matchesList category.str cats then false
        else matchesRuleAfterCats regexTest target m
    | none => matchesRuleAfterCats regexTest target m
  matchesRuleAfterCats (regexTest : String → String → Bool) (target : Option String)
      (m : PolicyMatch) : Bool :=
    match m.targetPatterns with
    | some pats =>
        if !matchesTarget regexTest target pats (m.targetPatternsAreRegex.getD false) then
          false
        else true
    | none => true

/-
  PersistentRateLimiter (code shown in src/extensions/web4-governance/README.md).

  The SQLite table `rate_limits(id, key, timestamp)` is modelled as a list of
  (key, timestamp) rows in insertion order; the prepared statements are:
  - insert:      INSERT INTO rate_limits (key, timestamp) VALUES (?, ?)
  - selectCount: SELECT COUNT(*) WHERE key = ? AND timestamp > ?
  - pruneKey:    DELETE WHERE key = ? AND timestamp <= ?
  The memory fallback Map<string, number[]> is an association list.
  Timestamps are integers (Date.now() milliseconds); `cutoff = now - windowMs`
  is computed in Int so that a window larger than `now` behaves like JS.
-/

/-- Result of PersistentRateLimiter.check. -/
structure RateLimitResult where
  allowed : Bool
  current : Nat
  limit : Nat
deriving DecidableEq, Repr

/-- State of a PersistentRateLimiter: the flag says whether better-sqlite3
loaded (then dbRows is live), otherwise memoryFallback is used. -/
structure PersistentRateLimiter where
  isPersistent : Bool
  dbRows : List (String × Int)
  memoryFallback : List (String × List Int)
deriving DecidableEq, Repr

/-- Map.get on the memory fallback. -/
def memGet (m : List (String × List Int)) (key : String) : Option (List Int) :=
  (m.find? (fun p => p.1 = key)).map (·.2)

/-- Map.set on the memory fallback. -/
def memSet (m : List (String × List Int)) (key : String) (v : List Int) :
    List (String × List Int) :=
  match m with
  | [] => [(key, v)]
  | p :: rest => if p.1 = key then (key, v) :: rest else p :: memSet rest key v

/-- PersistentRateLimiter.check: prune this key's expired rows
(timestamp ≤ cutoff), count the remaining in-window rows (timestamp > cutoff),
`allowed = current < maxCount` — except that the memory fallback returns
`allowed = true, current = 0` unconditionally when the key has no entry. -/
def rlCheck (rl : PersistentRateLimiter) (key : String) (maxCount : Nat)
    (windowMs : Int) (now : Int) : RateLimitResult × PersistentRateLimiter :=
  let cutoff := now - windowMs
  if rl.isPersistent then
    let rows := rl.dbRows.filter (fun e => !(e.1 = key && e.2 ≤ cutoff))
    let current := (rows.filter (fun e => e.1 = key && cutoff < e.2)).length
    (⟨decide (current < maxCount), current, maxCount⟩, { rl with dbRows := rows })
  else
    match memGet rl.memoryFallback key with
    | none => (⟨true, 0, maxCount⟩, rl)
    | some timestamps =>
        let pruned := timestamps.filter (fun t => cutoff < t)
        (⟨decide (pruned.length < maxCount), pruned.length, maxCount⟩,
         { rl with memoryFallback := memSet rl.memoryFallback key pruned })

/-- PersistentRateLimiter.record: unconditionally insert one event at `now`
(no limit enforcement). -/
def rlRecord (rl : PersistentRateLimiter) (key : String) (now : Int) :
    PersistentRateLimiter :=
  if rl.isPersistent then
    { rl with dbRows := rl.dbRows ++ [(key, now)] }
  else
    match memGet rl.memoryFallback key with
    | some timestamps => { rl with memoryFallback := memSet rl.memoryFallback key (timestamps ++ [now]) }
    | none => { rl with memoryFallback := memSet rl.memoryFallback key [now] }

/-- The number of events for `key` whose timestamp is strictly inside the
window (timestamp > now - windowMs) among a list of rows. -/
def inWindowCount (rows : List (String × Int)) (key : String) (cutoff : Int) : Nat :=
  (rows.filter (fun e => e.1 = key && cutoff < e.2)).length

/-
  Concrete instantiations used by witnesses and counterexamples: a toy hash,
  a toy signature scheme satisfying the correctness hypotheses, a lookup-table
  parse, and sample R6 requests.  On every concrete string they are applied to
  below, the lookup parse agrees with JSON.parse of that string followed by
  projection onto the AuditRecord fields.
-/

/-- A short checksum keeping the toy hash and signatures small enough for
kernel evaluation. -/
def strChecksum (s : String) : Nat :=
  s.data.foldl (fun a c => (a * 31 + c.toNat) % 100000) 7

def toyH16 (s : String) : String :=
  "h:" ++ toString (strChecksum s)

def toySign (data privateKeyHex : String) : String :=
  "s:" ++ privateKeyHex ++ ":" ++ toString (strChecksum data)

def toySigVerify (data sig publicKeyHex : String) : Bool :=
  publicKeyHex = "PK" && sig = toySign data "SK"

def toyCfg : SigningConfig :=
  { privateKeyHex := "SK", publicKeyHex := "PK", keyId := "KID" }

/-- Lookup-table parse: defined on finitely many lines. -/
def parseOfList (l : List (String × AuditRecord)) (s : String) : Option AuditRecord :=
  (l.find? (fun p => p.1 = s)).map (·.2)

/-- Public-key map holding exactly the toy session key. -/
def toyPks (k : String) : Option String :=
  if k = "KID" then some "PK" else none

def sampleR6A : R6Request :=
  { id := "r6:aaaa1111"
    timestamp := "2026-01-01T00:00:00.000Z"
    rules := { auditLevel := "standard", constraints := [], policyEntityId := none }
    role := { sessionId := "sess-1", agentId := none, actionIndex := 0, bindingType := "soft-lct" }
    request := { toolName := "Read", category := .file_read, target := some "/tmp/a.txt",
                 targets := none, inputHash := "0123456789abcdef" }
    reference := { sessionId := "sess-1", prevR6Id := none, chainPosition := 0 }
    resource := { estimatedTokens := none, approvalRequired := false } }

def sampleR6B : R6Request :=
  { id := "r6:bbbb2222"
    timestamp := "2026-01-01T00:00:01.000Z"
    rules := { auditLevel := "standard", constraints := [], policyEntityId := none }
    role := { sessionId := "sess-1", agentId := none, actionIndex := 1, bindingType := "soft-lct" }
    request := { toolName := "Write", category := .file_write, target := some "/tmp/b.txt",
                 targets := none, inputHash := "fedcba9876543210" }
    reference := { sessionId := "sess-1", prevR6Id := some "r6:aaaa1111", chainPosition := 1 }
    resource := { estimatedTokens := none, approvalRequired := false } }

def sampleResult : AuditResult :=
  { status := "success", outputHash := none, errorMessage := none, durationMs := none }

/-- A two-record signed session log: record, then a reload (a fresh AuditChain
reconstructing state from the file), then another record. -/
def wStep1 : ChainState × AuditRecord :=
  chainRecord toyH16 toySign (some toyCfg) "sess-1" chainInit sampleR6A sampleResult
    "2026-01-01T00:00:00.500Z"

def wRec0 : AuditRecord := wStep1.2

def wStep2 : ChainState × AuditRecord :=
  chainRecord toyH16 toySign (some toyCfg) "sess-1" (chainReload toyH16 wStep1.1) sampleR6B
    sampleResult "2026-01-01T00:00:01.500Z"

def wSt2 : ChainState := wStep2.1

def wRec1 : AuditRecord := wStep2.2

/-- Parse table for the two sample lines. -/
def wParse : String → Option AuditRecord :=
  parseOfList [(serializeAuditRecord wRec0, wRec0), (serializeAuditRecord wRec1, wRec1)]

/-
  Chain-integrity invariant (audit.ts `record` / `loadExisting`).
-/

/-- The prevHash an AuditChain holds after its log: "genesis" for an empty log,
else the truncated hash of the last written line. -/
def lastLineHash (h16 : String → String) (log : List AuditRecord) : String :=
  match log.getLast? with
  | none => "genesis"
  | some r => h16 (serializeAuditRecord r)

/-- A log is hash-linked: the head is a genesis record and each following
record stores the truncated hash of the previous record's serialized line. -/
def ChainLinked (h16 : String → String) (log : List AuditRecord) : Prop :=
  (∀ r, log.head? = some r → r.provenance.prevRecordHash = "genesis") ∧
  (∀ i r r', log[i]? = some r → log[i + 1]? = some r' →
    r'.provenance.prevRecordHash = h16 (serializeAuditRecord r))

theorem signRecordWith_provenance (sign : String → String → String) (cfg : SigningConfig)
    (r : AuditRecord) : (signRecordWith sign cfg r).provenance = r.provenance := rfl

theorem produced_inv (h16 : String → String) (sign : String → String → String)
    (osig : Option SigningConfig) (sid : String) (st : ChainState)
    (hp : Produced h16 sign osig sid st) :
    st.prevHash = lastLineHash h16 st.log ∧ ChainLinked h16 st.log := by
  induction hp with
  | init =>
      refine ⟨rfl, ?_, ?_⟩
      · intro r hr; simp [chainInit] at hr
      · intro i r r' hr hr'; simp [chainInit] at hr
  | step st r6 result ts hprev ih =>
      obtain ⟨ihHash, ihHead, ihLink⟩ := ih
      set recd := (chainRecord h16 sign osig sid st r6 result ts).2 with hrecd
      have hlog : (chainRecord h16 sign osig sid st r6 result ts).1.log = st.log ++ [recd] := rfl
      have hprevrec : recd.provenance.prevRecordHash = st.prevHash := by
        rw [hrecd]
        cases osig <;> rfl
      constructor
      · show h16 (serializeAuditRecord recd) = _
        rw [hlog, lastLineHash, List.getLast?_concat]
      · constructor
        · intro r hr
          rw [hlog] at hr
          cases hl : st.log with
          | nil =>
              rw [hl] at hr
              simp at hr
              rw [← hr, hprevrec, ihHash, hl]
              rfl
          | cons a tl =>
              rw [hl] at hr
              simp at hr
              exact ihHead r (by rw [hl]; simp [hr])
        · intro i r r' hr hr'
          rw [hlog] at hr hr'
          rcases lt_trichotomy (i + 1) st.log.length with hlt | heq | hgt
          · rw [List.getElem?_append, if_pos (by omega)] at hr
            rw [List.getElem?_append, if_pos hlt] at hr'
            exact ihLink i r r' hr hr'
          · rw [List.getElem?_append, if_pos (by omega)] at hr
            rw [List.getElem?_append, if_neg (by omega), heq] at hr'
            simp at hr'
            have hlast : st.log.getLast? = some r := by
              rw [List.getLast?_eq_getElem?]
              have : st.log.length - 1 = i := by omega
              rw [this, hr]
            rw [← hr', hprevrec, ihHash, lastLineHash, hlast]
          · rw [List.getElem?_append, if_neg (by omega)] at hr'
            have hge : 1 ≤ i + 1 - st.log.length := by omega
            rcases Nat.exists_eq_add_of_le hge with ⟨k, hk⟩
            rw [hk, Nat.add_comm] at hr'
            simp at hr'
  | reload st hprev ih =>
      obtain ⟨ihHash, ihLink⟩ := ih
      exact ⟨rfl, ihLink⟩

/-- C1: For every session log produced by a sequence of AuditChain.record calls
(including sequences resumed after reconstructing the chain from an existing
log file via loadExisting), the first record's provenance.prevRecordHash is the
literal string "genesis", and every later record's provenance.prevRecordHash is
the truncated SHA-256 (`h16`) of the exact serialized line written to disk for
the preceding record. -/
theorem auditChain_chain_integrity (h16 : String → String)
    (sign : String → String → String) (osig : Option SigningConfig) (sid : String)
    (st : ChainState) (hp : Produced h16 sign osig sid st) :
    (∀ r, st.log.head? = some r → r.provenance.prevRecordHash = "genesis") ∧
    (∀ i r r', st.log[i]? = some r → st.log[i + 1]? = some r' →
      r'.provenance.prevRecordHash = h16 (serializeAuditRecord r)) :=
  (produced_inv h16 sign osig sid st hp).2

/-- Witness for C1 on the concrete two-record resumed log: the second record
stores the toy hash of the first record's serialized line, and the first
record stores "genesis". -/
theorem auditChain_chain_integrity_witness :
    wRec0.provenance.prevRecordHash = "genesis" ∧
    wRec1.provenance.prevRecordHash = toyH16 (serializeAuditRecord wRec0) := by
  have hp : Produced toyH16 toySign (some toyCfg) "sess-1" wSt2 :=
    Produced.step _ sampleR6B sampleResult _
      (Produced.reload _ (Produced.step _ sampleR6A sampleResult _ Produced.init))
  have h := auditChain_chain_integrity toyH16 toySign (some toyCfg) "sess-1" wSt2 hp
  constructor
  · exact h.1 wRec0 (by rfl)
  · exact h.2 0 wRec0 wRec1 (by rfl) (by rfl)

/-- C4: AuditChain.verify is diagnostic on any log-file content: the report it
returns satisfies `valid = errors.isEmpty` in every case, and a missing file
(`none`) or a file whose trimmed content is empty yields
`valid = true, recordCount = 0`, empty errors and all-zero signature
statistics.  (Exception-freedom is reflected by `verifyChain` being a total
function: the source's try/catch converts any per-line failure into a
"Record i: parse error" entry, modelled by `parse = none`.) -/
theorem auditChain_verify_report (h16 : String → String)
    (sigVerify : String → String → String → Bool) (parse : String → Option AuditRecord)
    (pks : String → Option String) (content : Option String) :
    ((verifyChain h16 sigVerify parse pks content).valid
      = (verifyChain h16 sigVerify parse pks content).errors.isEmpty)
    ∧ ((content = none ∨ ∃ c, content = some c ∧ jsTrim c = "") →
        verifyChain h16 sigVerify parse pks content
          = ⟨true, 0, [], ⟨0, 0, 0, 0⟩⟩) := by
  constructor
  · cases content with
    | none => rfl
    | some c =>
        by_cases h : jsTrim c = ""
        · simp [verifyChain, h]
        · simp [verifyChain, h, verifyLines]
  · rintro (rfl | ⟨c, rfl, hc⟩)
    · rfl
    · simp [verifyChain, hc]

/-- Witness for C4: the missing-file and empty-file reports on a concrete
verifier instantiation. -/
theorem auditChain_verify_report_witness :
    verifyChain toyH16 toySigVerify wParse toyPks none = ⟨true, 0, [], ⟨0, 0, 0, 0⟩⟩ ∧
    verifyChain toyH16 toySigVerify wParse toyPks (some "") = ⟨true, 0, [], ⟨0, 0, 0, 0⟩⟩ :=
  ⟨(auditChain_verify_report toyH16 toySigVerify wParse toyPks none).2 (Or.inl rfl),
   (auditChain_verify_report toyH16 toySigVerify wParse toyPks (some "")).2
     (Or.inr ⟨"", rfl, by decide⟩)⟩

/-- C10: a rule whose PolicyMatch carries a `targetPatterns` field can never
fire on a call with no extracted target: matchesTarget returns false for an
undefined target, so matchesRule returns false, whatever the other match
fields and the regex flag are. -/
theorem matchesRule_requires_target (regexTest : String → String → Bool)
    (toolName : String) (category : ToolCategory) (m : PolicyMatch)
    (h : m.targetPatterns.isSome = true) :
    matchesRule regexTest toolName category none m = false := by
  rcases hm : m.targetPatterns with _ | pats
  · rw [hm] at h; simp at h
  · cases ht : m.tools <;> cases hc : m.categories <;>
      simp [matchesRule, matchesRule.matchesRuleAfterTools,
        matchesRule.matchesRuleAfterCats, ht, hc, hm, matchesTarget]

/-- Witness for C10 at a concrete rule with all three criteria present. -/
theorem matchesRule_requires_target_witness :
    matchesRule (fun _ _ => true) "Bash" .command none
      ⟨some ["Bash"], some ["command"], some ["/tmp/**"], some true⟩ = false :=
  matchesRule_requires_target (fun _ _ => true) "Bash" .command
    ⟨some ["Bash"], some ["command"], some ["/tmp/**"], some true⟩ rfl

/-- No entry of the tool-category table maps to credential_access: that
category only ever arises from target escalation. -/
theorem toolCategories_no_credential :
    ∀ p ∈ TOOL_CATEGORIES, p.2 ≠ ToolCategory.credential_access := by decide

/-- C8: classifyToolWithTarget returns credential_access exactly when the base
category of the tool is file_read or file_write and the target matches a
credential pattern (case-insensitively, over the full target string); in
particular Read of "/home/u/.env" is credential_access, Read of "/src/main.c"
stays file_read, and a tool name outside TOOL_CATEGORIES yields unknown
whatever the target is. -/
theorem classifyToolWithTarget_credential :
    (∀ toolName target,
      classifyToolWithTarget toolName target = ToolCategory.credential_access
        ↔ ((classifyTool toolName = ToolCategory.file_read
             ∨ classifyTool toolName = ToolCategory.file_write)
            ∧ isCredentialTarget target = true)) ∧
    classifyToolWithTarget "Read" (some "/home/u/.env") = ToolCategory.credential_access ∧
    classifyToolWithTarget "Read" (some "/src/main.c") = ToolCategory.file_read ∧
    (∀ toolName target, toolCategoriesLookup toolName = none →
      classifyToolWithTarget toolName target = ToolCategory.unknown) := by
  have hnc : ∀ toolName, classifyTool toolName ≠ ToolCategory.credential_access := by
    intro toolName
    unfold classifyTool
    rcases hl : toolCategoriesLookup toolName with _ | v
    · simp
    · simp only [Option.getD_some]
      rcases hf : TOOL_CATEGORIES.find? (fun p => p.1 = toolName) with _ | pr
      · rw [toolCategoriesLookup, hf] at hl; simp at hl
      · have hmem := List.mem_of_find?_eq_some hf
        rw [toolCategoriesLookup, hf] at hl
        simp at hl
        rw [← hl]
        exact toolCategories_no_credential pr hmem
  refine ⟨?_, ?_, ?_, ?_⟩
  · intro toolName target
    constructor
    · intro h
      unfold classifyToolWithTarget at h
      by_cases hcond :
          ((classifyTool toolName = ToolCategory.file_read
             || classifyTool toolName = ToolCategory.file_write)
            && isCredentialTarget target) = true
      · rw [Bool.and_eq_true, Bool.or_eq_true] at hcond
        refine ⟨?_, hcond.2⟩
        rcases hcond.1 with h1 | h1
        · exact Or.inl (of_decide_eq_true h1)
        · exact Or.inr (of_decide_eq_true h1)
      · rw [if_neg hcond] at h
        exact absurd h (hnc toolName)
    · rintro ⟨hcat, hcred⟩
      unfold classifyToolWithTarget
      rw [if_pos]
      rw [Bool.and_eq_true, Bool.or_eq_true]
      refine ⟨?_, hcred⟩
      rcases hcat with h1 | h1
      · exact Or.inl (decide_eq_true h1)
      · exact Or.inr (decide_eq_true h1)
  · simp [classifyToolWithTarget, classifyTool, toolCategoriesLookup, TOOL_CATEGORIES,
      isCredentialTarget, CREDENTIAL_PATTERNS, patTestEnd, ratomSearch, ratomMatch, litAtoms]
  · simp [classifyToolWithTarget, classifyTool, toolCategoriesLookup, TOOL_CATEGORIES,
      isCredentialTarget, CREDENTIAL_PATTERNS, patTestEnd, ratomSearch, ratomMatch, litAtoms]
  · intro toolName target hl
    unfold classifyToolWithTarget classifyTool
    rw [hl]
    simp

/-- Witness for C8: a tool name outside the table classifies as unknown even on
a credential target. -/
theorem classifyToolWithTarget_credential_witness :
    toolCategoriesLookup "Frobnicate" = none ∧
    classifyToolWithTarget "Frobnicate" (some "/home/u/.env") = ToolCategory.unknown :=
  ⟨by decide,
   classifyToolWithTarget_credential.2.2.2 "Frobnicate" (some "/home/u/.env") (by decide)⟩

/-- Map.set then Map.get on the memory fallback returns the stored list. -/
theorem memGet_memSet (m : List (String × List Int)) (key : String) (v : List Int) :
    memGet (memSet m key v) key = some v := by
  induction m with
  | nil => simp [memSet, memGet, List.find?]
  | cons p rest ih =>
      by_cases h : p.1 = key
      · simp [memSet, h, memGet, List.find?]
      · simp only [memSet, if_neg h]
        simp only [memGet, List.find?]
        rw [decide_eq_false h]
        exact ih

/-- Counterexample to C5 as stated: in the memory fallback with no entry for
the key and maxCount = 0, check returns allowed = true with current = 0 even
though current < maxCount is false; the SQLite branch on the same inputs
returns allowed = false.  The two branches are therefore not identical and
`allowed ⇔ current < maxCount` fails in the fallback. -/
theorem rlCheck_memory_shortcut_counterexample :
    (rlCheck ⟨false, [], []⟩ "k" 0 1000 5000).1 = ⟨true, 0, 0⟩ ∧
    ¬((rlCheck ⟨false, [], []⟩ "k" 0 1000 5000).1.current < 0) ∧
    (rlCheck ⟨true, [], []⟩ "k" 0 1000 5000).1 = ⟨false, 0, 0⟩ := by
  refine ⟨by decide, by decide, by decide⟩

/-- C5 (amended): check returns `current` equal to the number of events for the
key with timestamp strictly greater than now - windowMs (an event at exactly
the cutoff is expired and pruned), and `allowed = (current < maxCount)` — in
the SQLite branch always, and in the memory fallback whenever the key has an
entry; when the key has no entry the fallback short-circuits to
`allowed = true, current = 0`, which agrees with `current < maxCount` exactly
when maxCount > 0.  record unconditionally appends one event at `now`. -/
theorem rlCheck_window_semantics (rl : PersistentRateLimiter) (key : String)
    (maxCount : Nat) (windowMs now : Int) :
    (rl.isPersistent = true →
      (rlCheck rl key maxCount windowMs now).1 =
        ⟨decide (inWindowCount rl.dbRows key (now - windowMs) < maxCount),
         inWindowCount rl.dbRows key (now - windowMs), maxCount⟩) ∧
    (rl.isPersistent = false → ∀ ts, memGet rl.memoryFallback key = some ts →
      (rlCheck rl key maxCount windowMs now).1 =
        ⟨decide ((ts.filter (fun t => now - windowMs < t)).length < maxCount),
         (ts.filter (fun t => now - windowMs < t)).length, maxCount⟩) ∧
    (rl.isPersistent = false → memGet rl.memoryFallback key = none →
      (rlCheck rl key maxCount windowMs now).1 = ⟨true, 0, maxCount⟩) ∧
    (0 < maxCount →
      (rlCheck rl key maxCount windowMs now).1.allowed
        = decide ((rlCheck rl key maxCount windowMs now).1.current < maxCount)) ∧
    ((rlRecord rl key now).isPersistent = rl.isPersistent ∧
     (rl.isPersistent = true → (rlRecord rl key now).dbRows = rl.dbRows ++ [(key, now)]) ∧
     (rl.isPersistent = false →
       memGet (rlRecord rl key now).memoryFallback key =
         some ((memGet rl.memoryFallback key).getD [] ++ [now]))) := by
  have hfilter :
      (rl.dbRows.filter (fun e => !(e.1 = key && e.2 ≤ now - windowMs))).filter
          (fun e => e.1 = key && now - windowMs < e.2)
        = rl.dbRows.filter (fun e => e.1 = key && now - windowMs < e.2) := by
    rw [List.filter_filter]
    apply List.filter_congr
    intro e _
    by_cases h1 : e.1 = key <;> by_cases h2 : now - windowMs < e.2 <;>
      simp [h1, h2]
  refine ⟨?_, ?_, ?_, ?_, ?_, ?_, ?_⟩
  · intro hp
    simp only [rlCheck, hp, if_pos]
    rw [hfilter]
    rfl
  · intro hp ts hts
    simp [rlCheck, hp, hts]
  · intro hp hts
    simp [rlCheck, hp, hts]
  · intro hmax
    by_cases hp : rl.isPersistent
    · simp only [rlCheck, hp, if_pos]
    · simp only [rlCheck, Bool.not_eq_true] at hp
      simp only [rlCheck, hp]
      cases hts : memGet rl.memoryFallback key with
      | none => simp [decide_eq_true_eq]; omega
      | some ts => rfl
  · by_cases hp : rl.isPersistent = true
    · simp [rlRecord, hp]
    · rw [Bool.not_eq_true] at hp
      simp only [rlRecord, hp, Bool.false_eq_true, if_false]
      cases memGet rl.memoryFallback key <;> rfl
  · intro hp
    simp [rlRecord, hp]
  · intro hp
    simp only [rlRecord, hp, Bool.false_eq_true, if_neg, ite_false]
    cases hts : memGet rl.memoryFallback key with
    | none => simp [memGet_memSet]
    | some ts => simp [memGet_memSet]

/-- Witness for C5: a pruned boundary event (timestamp = cutoff) is not
counted, both branches agree on a populated key, and record appends. -/
theorem rlCheck_window_semantics_witness :
    (rlCheck ⟨true, [("k", 100), ("k", 50), ("j", 200)], []⟩ "k" 2 1000 1050).1
      = ⟨true, 1, 2⟩ ∧
    (rlCheck ⟨false, [], [("k", [100, 50])]⟩ "k" 2 1000 1050).1 = ⟨true, 1, 2⟩ ∧
    (rlRecord ⟨true, [("k", 100)], []⟩ "k" 1050).dbRows = [("k", 100), ("k", 1050)] := by
  refine ⟨?_, ?_, ?_⟩
  · rw [(rlCheck_window_semantics ⟨true, [("k", 100), ("k", 50), ("j", 200)], []⟩
      "k" 2 1000 1050).1 rfl]
    decide
  · rw [(rlCheck_window_semantics ⟨false, [], [("k", [100, 50])]⟩
      "k" 2 1000 1050).2.1 rfl [100, 50] (by decide)]
    decide
  · rw [(rlCheck_window_semantics ⟨true, [("k", 100)], []⟩
      "k" 2 1000 1050).2.2.2.2.2.1 rfl]
    decide

/-
  Structure of verify's signature statistics and error accumulation.
-/

/-- The signature block of verify runs iff both fields are truthy. -/
def sigAttempted (r : AuditRecord) : Bool :=
  truthy r.signature && truthy r.signingKeyId

/-- Whether verify can look up a public key for the record. -/
def sigKeyFound (pks : String → Option String) (r : AuditRecord) : Bool :=
  (pks (r.signingKeyId.getD "")).isSome

/-- Whether the record's signature verifies against the re-serialization of
the record with the signature fields stripped. -/
def sigChecksOut (sigVerify : String → String → String → Bool)
    (pks : String → Option String) (r : AuditRecord) : Bool :=
  match pks (r.signingKeyId.getD "") with
  | some pk => sigVerify (serializeAuditRecord (stripSig r)) (r.signature.getD "") pk
  | none => false

/-- verify's error list accumulates: running the loop with a non-empty initial
error list appends to it exactly what the loop starting empty produces. -/
theorem verifyLoop_errors_acc (h16 : String → String)
    (sigVerify : String → String → String → Bool) (parse : String → Option AuditRecord)
    (pks : String → Option String) :
    ∀ (lines : List String) (i : Nat) (prevHash : String) (errors : List String)
      (stats : SigStats),
      (verifyLoop h16 sigVerify parse pks i prevHash errors stats lines).2.1
        = errors ++ (verifyLoop h16 sigVerify parse pks i prevHash [] stats lines).2.1 := by
  intro lines
  induction lines with
  | nil => intro i prevHash errors stats; simp [verifyLoop]
  | cons line rest ih =>
      intro i prevHash errors stats
      cases hp : parse line with
      | none =>
          simp only [verifyLoop, hp]
          rw [ih (i + 1) prevHash (errors ++ [parseErrorMsg i]) stats,
            ih (i + 1) prevHash ([] ++ [parseErrorMsg i]) stats]
          simp
      | some r =>
          simp only [verifyLoop, hp]
          by_cases hchain : r.provenance.prevRecordHash = prevHash
          · rw [if_pos hchain, if_pos hchain]
            by_cases hsig : (truthy r.signature && truthy r.signingKeyId) = true
            · rw [if_pos hsig, if_pos hsig]
              cases hk : pks (r.signingKeyId.getD "") with
              | some pk =>
                  simp only [hk]
                  by_cases hv : sigVerify (serializeAuditRecord (stripSig r))
                      (r.signature.getD "") pk = true
                  · rw [if_pos hv, if_pos hv]
                    exact ih _ _ _ _
                  · rw [if_neg hv, if_neg hv]
                    rw [ih (i + 1) (h16 line) (errors ++ [invalidSigMsg i]),
                      ih (i + 1) (h16 line) ([] ++ [invalidSigMsg i])]
                    simp
              | none =>
                  simp only [hk]
                  exact ih _ _ _ _
            · rw [if_neg hsig, if_neg hsig]
              exact ih _ _ _ _
          · rw [if_neg hchain, if_neg hchain]
            by_cases hsig : (truthy r.signature && truthy r.signingKeyId) = true
            · rw [if_pos hsig, if_pos hsig]
              cases hk : pks (r.signingKeyId.getD "") with
              | some pk =>
                  simp only [hk]
                  by_cases hv : sigVerify (serializeAuditRecord (stripSig r))
                      (r.signature.getD "") pk = true
                  · rw [if_pos hv, if_pos hv]
                    rw [ih (i + 1) (h16 line)
                        (errors ++ [hashMismatchMsg i prevHash r.provenance.prevRecordHash]),
                      ih (i + 1) (h16 line)
                        ([] ++ [hashMismatchMsg i prevHash r.provenance.prevRecordHash])]
                    simp
                  · rw [if_neg hv, if_neg hv]
                    rw [ih (i + 1) (h16 line)
                        (errors ++ [hashMismatchMsg i prevHash r.provenance.prevRecordHash]
                          ++ [invalidSigMsg i]),
                      ih (i + 1) (h16 line)
                        ([] ++ [hashMismatchMsg i prevHash r.provenance.prevRecordHash]
                          ++ [invalidSigMsg i])]
                    simp
              | none =>
                  simp only [hk]
                  rw [ih (i + 1) (h16 line)
                      (errors ++ [hashMismatchMsg i prevHash r.provenance.prevRecordHash]),
                    ih (i + 1) (h16 line)
                      ([] ++ [hashMismatchMsg i prevHash r.provenance.prevRecordHash])]
                  simp
            · rw [if_neg hsig, if_neg hsig]
              rw [ih (i + 1) (h16 line)
                  (errors ++ [hashMismatchMsg i prevHash r.provenance.prevRecordHash]),
                ih (i + 1) (h16 line)
                  ([] ++ [hashMismatchMsg i prevHash r.provenance.prevRecordHash])]
              simp

/-- The prevHash value after one loop iteration: updated to the line's hash
exactly when the line parses. -/
def stepPrev (h16 : String → String) (parse : String → Option AuditRecord)
    (prevHash line : String) : String :=
  match parse line with
  | none => prevHash
  | some _ => h16 line

/-- The errors contributed by one loop iteration. -/
def stepErrs (sigVerify : String → String → String → Bool)
    (parse : String → Option AuditRecord) (pks : String → Option String)
    (i : Nat) (prevHash line : String) : List String :=
  match parse line with
  | none => [parseErrorMsg i]
  | some r =>
      (if r.provenance.prevRecordHash = prevHash then []
       else [hashMismatchMsg i prevHash r.provenance.prevRecordHash]) ++
      (if sigAttempted r && sigKeyFound pks r && !sigChecksOut sigVerify pks r then
        [invalidSigMsg i]
       else [])

/-- The statistics contributed by one loop iteration. -/
def stepStats (sigVerify : String → String → String → Bool)
    (parse : String → Option AuditRecord) (pks : String → Option String)
    (stats : SigStats) (line : String) : SigStats :=
  match parse line with
  | none => stats
  | some r =>
      { signed := stats.signed + (if sigAttempted r then 1 else 0)
        verified := stats.verified + (if sigAttempted r && sigChecksOut sigVerify pks r then 1 else 0)
        unverified := stats.unverified + (if sigAttempted r && !sigKeyFound pks r then 1 else 0)
        invalid := stats.invalid +
          (if sigAttempted r && sigKeyFound pks r && !sigChecksOut sigVerify pks r then 1 else 0) }

/-- One iteration of verify's loop, characterized by the step functions. -/
theorem verifyLoop_cons (h16 : String → String)
    (sigVerify : String → String → String → Bool) (parse : String → Option AuditRecord)
    (pks : String → Option String) (i : Nat) (prevHash : String) (errors : List String)
    (stats : SigStats) (line : String) (rest : List String) :
    verifyLoop h16 sigVerify parse pks i prevHash errors stats (line :: rest)
      = verifyLoop h16 sigVerify parse pks (i + 1) (stepPrev h16 parse prevHash line)
          (errors ++ stepErrs sigVerify parse pks i prevHash line)
          (stepStats sigVerify parse pks stats line) rest := by
  cases hp : parse line with
  | none => simp [verifyLoop, stepPrev, stepErrs, stepStats, hp]
  | some r =>
      simp only [verifyLoop, stepPrev, stepErrs, stepStats, hp]
      by_cases hsig : (truthy r.signature && truthy r.signingKeyId) = true
      · rw [if_pos hsig]
        have hatt : sigAttempted r = true := hsig
        cases hk : pks (r.signingKeyId.getD "") with
        | some pk =>
            simp only [hk]
            have hkf : sigKeyFound pks r = true := by simp [sigKeyFound, hk]
            by_cases hv : sigVerify (serializeAuditRecord (stripSig r))
                (r.signature.getD "") pk = true
            · rw [if_pos hv]
              have hco : sigChecksOut sigVerify pks r = true := by
                simp [sigChecksOut, hk, hv]
              by_cases hchain : r.provenance.prevRecordHash = prevHash <;>
                simp [hchain, hatt, hkf, hco]
            · rw [if_neg hv]
              have hco : sigChecksOut sigVerify pks r = false := by
                simp [sigChecksOut, hk]
                exact Bool.of_not_eq_true hv
              by_cases hchain : r.provenance.prevRecordHash = prevHash <;>
                simp [hchain, hatt, hkf, hco]
        | none =>
            simp only [hk]
            have hkf : sigKeyFound pks r = false := by simp [sigKeyFound, hk]
            have hco : sigChecksOut sigVerify pks r = false := by simp [sigChecksOut, hk]
            by_cases hchain : r.provenance.prevRecordHash = prevHash <;>
              simp [hchain, hatt, hkf, hco]
      · rw [if_neg hsig]
        have hatt : sigAttempted r = false := by
          simp only [sigAttempted]
          exact Bool.of_not_eq_true hsig
        by_cases hchain : r.provenance.prevRecordHash = prevHash <;>
          simp [hchain, hatt]

/-- Splitting verify's loop across a concatenation of line lists. -/
theorem verifyLoop_append (h16 : String → String)
    (sigVerify : String → String → String → Bool) (parse : String → Option AuditRecord)
    (pks : String → Option String) :
    ∀ (l1 l2 : List String) (i : Nat) (prevHash : String) (errors : List String)
      (stats : SigStats),
      verifyLoop h16 sigVerify parse pks i prevHash errors stats (l1 ++ l2)
        = verifyLoop h16 sigVerify parse pks (i + l1.length)
            (verifyLoop h16 sigVerify parse pks i prevHash errors stats l1).1
            (verifyLoop h16 sigVerify parse pks i prevHash errors stats l1).2.1
            (verifyLoop h16 sigVerify parse pks i prevHash errors stats l1).2.2 l2 := by
  intro l1
  induction l1 with
  | nil => intro l2 i prevHash errors stats; simp [verifyLoop]
  | cons line l1' ih =>
      intro l2 i prevHash errors stats
      rw [List.cons_append, verifyLoop_cons, verifyLoop_cons, ih]
      have : i + 1 + l1'.length = i + (line :: l1').length := by simp; omega
      rw [this]

/-- The final prevHash of verify's loop is the hash of the last line whenever
that last line parses. -/
theorem verifyLoop_prevHash_last (h16 : String → String)
    (sigVerify : String → String → String → Bool) (parse : String → Option AuditRecord)
    (pks : String → Option String) :
    ∀ (lines : List String) (l : String) (r : AuditRecord) (i : Nat)
      (prevHash : String) (errors : List String) (stats : SigStats),
      lines.getLast? = some l → parse l = some r →
      (verifyLoop h16 sigVerify parse pks i prevHash errors stats lines).1 = h16 l := by
  intro lines
  induction lines with
  | nil => intro l r i prevHash errors stats hl; simp at hl
  | cons line rest ih =>
      intro l r i prevHash errors stats hl hr
      by_cases hrest : rest = []
      · subst hrest
        simp at hl
        subst hl
        rw [verifyLoop_cons]
        simp [verifyLoop, stepPrev, hr]
      · rw [verifyLoop_cons]
        refine ih l r _ _ _ _ ?_ hr
        have : (line :: rest).getLast? = rest.getLast? := by
          cases rest with
          | nil => exact absurd rfl hrest
          | cons b t => simp [List.getLast?_cons_cons]
        rwa [this] at hl

/-- The signature statistics of verify's loop: each component adds the count of
parsed records in the corresponding class. -/
theorem verifyLoop_stats (h16 : String → String)
    (sigVerify : String → String → String → Bool) (parse : String → Option AuditRecord)
    (pks : String → Option String) :
    ∀ (lines : List String) (i : Nat) (prevHash : String) (errors : List String)
      (stats : SigStats),
      (verifyLoop h16 sigVerify parse pks i prevHash errors stats lines).2.2 =
        ⟨stats.signed + (lines.filterMap parse).countP sigAttempted,
         stats.verified + (lines.filterMap parse).countP
           (fun r => sigAttempted r && sigChecksOut sigVerify pks r),
         stats.unverified + (lines.filterMap parse).countP
           (fun r => sigAttempted r && !sigKeyFound pks r),
         stats.invalid + (lines.filterMap parse).countP
           (fun r => sigAttempted r && sigKeyFound pks r && !sigChecksOut sigVerify pks r)⟩ := by
  intro lines
  induction lines with
  | nil => intro i prevHash errors stats; simp [verifyLoop]
  | cons line rest ih =>
      intro i prevHash errors stats
      rw [verifyLoop_cons, ih]
      cases hp : parse line with
      | none => simp [stepStats, hp, List.filterMap_cons]
      | some r =>
          simp only [stepStats, hp, List.filterMap_cons, List.countP_cons, SigStats.mk.injEq]
          refine ⟨by omega, by omega, by omega, by omega⟩

/-- A signature check that succeeds implies the key was found. -/
theorem sigChecksOut_keyFound (sigVerify : String → String → String → Bool)
    (pks : String → Option String) (r : AuditRecord)
    (h : sigChecksOut sigVerify pks r = true) : sigKeyFound pks r = true := by
  unfold sigChecksOut at h
  unfold sigKeyFound
  cases hk : pks (r.signingKeyId.getD "") <;> simp [hk] at h ⊢

/-- Every attempted signature falls in exactly one of the three outcome
classes, so the counts decompose. -/
theorem countP_sigAttempted_split (sigVerify : String → String → String → Bool)
    (pks : String → Option String) :
    ∀ rs : List AuditRecord,
      rs.countP sigAttempted =
        rs.countP (fun r => sigAttempted r && sigChecksOut sigVerify pks r)
        + rs.countP (fun r => sigAttempted r && !sigKeyFound pks r)
        + rs.countP (fun r => sigAttempted r && sigKeyFound pks r
            && !sigChecksOut sigVerify pks r) := by
  intro rs
  induction rs with
  | nil => simp
  | cons r rest ih =>
      simp only [List.countP_cons]
      by_cases hA : sigAttempted r = true
      · by_cases hC : sigChecksOut sigVerify pks r = true
        · have hK := sigChecksOut_keyFound sigVerify pks r hC
          simp [hA, hC, hK]
          omega
        · rw [Bool.not_eq_true] at hC
          by_cases hK : sigKeyFound pks r = true
          · simp [hA, hC, hK]
            omega
          · rw [Bool.not_eq_true] at hK
            simp [hA, hC, hK]
            omega
      · rw [Bool.not_eq_true] at hA
        simp [hA]
        omega

/-- A record parsed from a log line whose `signature` field is present but
whose `signingKeyId` is absent: verify's `record.signature && record.signingKeyId`
guard skips it entirely. -/
def cexSigOnlyRec : AuditRecord :=
  { recordId := "audit:x", r6RequestId := "r6:x", timestamp := "T", tool := "Read"
    category := "file_read", target := none, targets := none
    result := ⟨"success", none, none, none⟩
    provenance := ⟨"sess-1", 0, "genesis"⟩
    signature := some "abcd", signingKeyId := none }

/-- Parse table for the signature-only line. -/
def cexSigOnlyParse : String → Option AuditRecord :=
  parseOfList [(serializeAuditRecord cexSigOnlyRec, cexSigOnlyRec)]

set_option maxRecDepth 4000 in
/-- Counterexample to C9 as stated: a log whose single record carries a
signature but no signingKeyId.  Its signature field is present, yet verify
leaves signatureStats.signed at 0 (and reports the chain as valid), because
the code increments `signed` only when BOTH signature and signingKeyId are
truthy. -/
theorem verify_signature_stats_counterexample :
    truthy cexSigOnlyRec.signature = true ∧
    (verifyLines toyH16 toySigVerify cexSigOnlyParse toyPks
        [serializeAuditRecord cexSigOnlyRec]).signatureStats.signed = 0 ∧
    (verifyLines toyH16 toySigVerify cexSigOnlyParse toyPks
        [serializeAuditRecord cexSigOnlyRec]).valid = true := by
  refine ⟨by decide, by decide, by decide⟩

/-- C9 (amended): during verify, every record whose signature AND signingKeyId
are both present and non-empty increments signatureStats.signed, and exactly
one of the three outcomes then holds per record — key supplied and signature
verifies (verified), key supplied and verification fails (invalid, with a
"Record i: invalid signature" error appended), key not supplied (unverified) —
so signed = verified + unverified + invalid.  A record carrying a signature
but lacking a truthy signingKeyId (or vice versa) is skipped entirely. -/
theorem verify_signature_statistics (h16 : String → String)
    (sigVerify : String → String → String → Bool) (parse : String → Option AuditRecord)
    (pks : String → Option String) (lines : List String) :
    (verifyLines h16 sigVerify parse pks lines).signatureStats.signed
        = (lines.filterMap parse).countP sigAttempted
    ∧ (verifyLines h16 sigVerify parse pks lines).signatureStats.verified
        = (lines.filterMap parse).countP
            (fun r => sigAttempted r && sigChecksOut sigVerify pks r)
    ∧ (verifyLines h16 sigVerify parse pks lines).signatureStats.unverified
        = (lines.filterMap parse).countP (fun r => sigAttempted r && !sigKeyFound pks r)
    ∧ (verifyLines h16 sigVerify parse pks lines).signatureStats.invalid
        = (lines.filterMap parse).countP
            (fun r => sigAttempted r && sigKeyFound pks r && !sigChecksOut sigVerify pks r)
    ∧ (verifyLines h16 sigVerify parse pks lines).signatureStats.signed
        = (verifyLines h16 sigVerify parse pks lines).signatureStats.verified
          + (verifyLines h16 sigVerify parse pks lines).signatureStats.unverified
          + (verifyLines h16 sigVerify parse pks lines).signatureStats.invalid
    ∧ (∀ (i : Nat) (l : String) (r : AuditRecord),
        lines[i]? = some l → parse l = some r → sigAttempted r = true →
        sigKeyFound pks r = true → sigChecksOut sigVerify pks r = false →
        invalidSigMsg i ∈ (verifyLines h16 sigVerify parse pks lines).errors) := by
  have hstats := verifyLoop_stats h16 sigVerify parse pks lines 0 "genesis" [] ⟨0, 0, 0, 0⟩
  have h1 : (verifyLines h16 sigVerify parse pks lines).signatureStats
      = (verifyLoop h16 sigVerify parse pks 0 "genesis" [] ⟨0, 0, 0, 0⟩ lines).2.2 := rfl
  refine ⟨?_, ?_, ?_, ?_, ?_, ?_⟩
  · rw [h1, hstats]; simp
  · rw [h1, hstats]; simp
  · rw [h1, hstats]; simp
  · rw [h1, hstats]; simp
  · rw [h1, hstats]
    simpa using countP_sigAttempted_split sigVerify pks (lines.filterMap parse)
  · intro i l r hil hp hA hK hC
    have hlt : i < lines.length := by
      rw [List.getElem?_eq_some] at hil
      exact hil.1
    have hli : lines[i] = l := by
      rw [List.getElem?_eq_some] at hil
      exact hil.2
    have htake : (lines.take i).length = i := by
      rw [List.length_take]; omega
    have hsplit : lines = lines.take i ++ l :: lines.drop (i + 1) := by
      conv_lhs => rw [← List.take_append_drop i lines]
      rw [List.drop_eq_getElem_cons hlt, hli]
    show invalidSigMsg i
      ∈ (verifyLoop h16 sigVerify parse pks 0 "genesis" [] ⟨0, 0, 0, 0⟩ lines).2.1
    have step1 : verifyLoop h16 sigVerify parse pks 0 "genesis" [] ⟨0, 0, 0, 0⟩ lines
        = verifyLoop h16 sigVerify parse pks (0 + (lines.take i).length)
            (verifyLoop h16 sigVerify parse pks 0 "genesis" [] ⟨0, 0, 0, 0⟩ (lines.take i)).1
            (verifyLoop h16 sigVerify parse pks 0 "genesis" [] ⟨0, 0, 0, 0⟩ (lines.take i)).2.1
            (verifyLoop h16 sigVerify parse pks 0 "genesis" [] ⟨0, 0, 0, 0⟩ (lines.take i)).2.2
            (l :: lines.drop (i + 1)) := by
      conv_lhs => rw [hsplit]
      rw [verifyLoop_append]
    have hacc := verifyLoop_errors_acc h16 sigVerify parse pks (lines.drop (i + 1))
      (0 + (lines.take i).length + 1)
      (stepPrev h16 parse
        (verifyLoop h16 sigVerify parse pks 0 "genesis" [] ⟨0, 0, 0, 0⟩ (lines.take i)).1 l)
      ((verifyLoop h16 sigVerify parse pks 0 "genesis" [] ⟨0, 0, 0, 0⟩ (lines.take i)).2.1
        ++ stepErrs sigVerify parse pks (0 + (lines.take i).length)
            (verifyLoop h16 sigVerify parse pks 0 "genesis" [] ⟨0, 0, 0, 0⟩ (lines.take i)).1 l)
      (stepStats sigVerify parse pks
        (verifyLoop h16 sigVerify parse pks 0 "genesis" [] ⟨0, 0, 0, 0⟩ (lines.take i)).2.2 l)
    rw [step1, verifyLoop_cons, hacc]
    apply List.mem_append_left
    apply List.mem_append_right
    rw [Nat.zero_add, htake]
    simp only [stepErrs, hp, hA, hK, hC]
    simp

/-- The first sample record with its signature replaced by a wrong value. -/
def badSigRec : AuditRecord :=
  { wRec0 with signature := some "bad" }

/-- Parse table for the bad-signature line. -/
def badSigParse : String → Option AuditRecord :=
  parseOfList [(serializeAuditRecord badSigRec, badSigRec)]

set_option maxRecDepth 8000 in
/-- Witness for C9 on a concrete one-line log whose signature fails to verify:
signed = invalid = 1 and the invalid-signature error for record 0 is
reported. -/
theorem verify_signature_statistics_witness :
    (verifyLines toyH16 toySigVerify badSigParse toyPks
        [serializeAuditRecord badSigRec]).signatureStats.signed = 1 ∧
    invalidSigMsg 0 ∈ (verifyLines toyH16 toySigVerify badSigParse toyPks
        [serializeAuditRecord badSigRec]).errors := by
  have h := verify_signature_statistics toyH16 toySigVerify badSigParse toyPks
    [serializeAuditRecord badSigRec]
  constructor
  · rw [h.1]; decide
  · exact h.2.2.2.2.2 0 (serializeAuditRecord badSigRec) badSigRec (by decide) (by decide)
      (by decide) (by decide) (by decide)

/-- Every record of a signed produced log carries the signature of its own
unsigned serialization and the session's keyId. -/
def SignedLog (sign : String → String → String) (cfg : SigningConfig)
    (log : List AuditRecord) : Prop :=
  ∀ r ∈ log,
    r.signature = some (sign (serializeAuditRecord (stripSig r)) cfg.privateKeyHex)
    ∧ r.signingKeyId = some cfg.keyId

/-- Stripping the signature fields of a freshly signed record returns the
unsigned record (the base built by mkAuditRecord has no signature fields). -/
theorem stripSig_signRecordWith (sign : String → String → String) (cfg : SigningConfig)
    (sid prevHash : String) (r6 : R6Request) (result : AuditResult) (ts : String) :
    stripSig (signRecordWith sign cfg (mkAuditRecord sid prevHash r6 result ts))
      = mkAuditRecord sid prevHash r6 result ts := rfl

theorem produced_signedLog (h16 : String → String) (sign : String → String → String)
    (cfg : SigningConfig) (sid : String) (st : ChainState)
    (hp : Produced h16 sign (some cfg) sid st) : SignedLog sign cfg st.log := by
  induction hp with
  | init => intro r hr; simp [chainInit] at hr
  | step st r6 result ts hprev ih =>
      intro r hr
      have hlog : (chainRecord h16 sign (some cfg) sid st r6 result ts).1.log
          = st.log ++ [signRecordWith sign cfg (mkAuditRecord sid st.prevHash r6 result ts)] :=
        rfl
      rw [hlog] at hr
      rcases List.mem_append.mp hr with hold | hnew
      · exact ih r hold
      · have hr' : r = signRecordWith sign cfg (mkAuditRecord sid st.prevHash r6 result ts) := by
          simpa using hnew
        subst hr'
        rw [stripSig_signRecordWith]
        exact ⟨rfl, rfl⟩
  | reload st hprev ih => exact ih

/-- Parsing the serialized lines of a log whose lines all round-trip recovers
the records. -/
theorem filterMap_parse_map (parse : String → Option AuditRecord) :
    ∀ log : List AuditRecord,
      (∀ r ∈ log, parse (serializeAuditRecord r) = some r) →
      (log.map serializeAuditRecord).filterMap parse = log := by
  intro log
  induction log with
  | nil => intro _; simp
  | cons r rest ih =>
      intro h
      simp only [List.map_cons, List.filterMap_cons, h r (by simp)]
      rw [ih (fun r' hr' => h r' (by simp [hr']))]

/-- C2: for every record appended by AuditChain.record with signing configured,
verifying the stored signature over the record's serialization with the
signature fields stripped succeeds against the session's public key (assuming
the signature scheme verifies its own signatures, signatures are non-empty hex
and the keyId is non-empty), and consequently verify with the matching public
key supplied counts every record as verified and none as invalid. -/
theorem auditRecord_signature_sound (h16 : String → String)
    (sign : String → String → String) (sigVerify : String → String → String → Bool)
    (parse : String → Option AuditRecord) (pks : String → Option String)
    (cfg : SigningConfig) (sid : String) (st : ChainState)
    (hp : Produced h16 sign (some cfg) sid st)
    (hcrypto : ∀ data, sigVerify data (sign data cfg.privateKeyHex) cfg.publicKeyHex = true)
    (hsignne : ∀ data, sign data cfg.privateKeyHex ≠ "")
    (hkid : cfg.keyId ≠ "")
    (hpk : pks cfg.keyId = some cfg.publicKeyHex)
    (hrt : st.log.all (fun r => parse (serializeAuditRecord r) == some r) = true) :
    (∀ r ∈ st.log,
      sigVerify (serializeAuditRecord (stripSig r)) (r.signature.getD "")
        cfg.publicKeyHex = true)
    ∧ (verifyLines h16 sigVerify parse pks
        (st.log.map serializeAuditRecord)).signatureStats.verified = st.log.length
    ∧ (verifyLines h16 sigVerify parse pks
        (st.log.map serializeAuditRecord)).signatureStats.invalid = 0 := by
  have hsl := produced_signedLog h16 sign cfg sid st hp
  have hrt' : ∀ r ∈ st.log, parse (serializeAuditRecord r) = some r := by
    intro r hr
    have := List.all_eq_true.mp hrt r hr
    exact eq_of_beq this
  have hver : ∀ r ∈ st.log,
      sigVerify (serializeAuditRecord (stripSig r)) (r.signature.getD "")
        cfg.publicKeyHex = true := by
    intro r hr
    obtain ⟨hs, _⟩ := hsl r hr
    rw [hs]
    exact hcrypto _
  have hfm : (st.log.map serializeAuditRecord).filterMap parse = st.log :=
    filterMap_parse_map parse st.log hrt'
  have hclass : ∀ r ∈ st.log,
      (sigAttempted r && sigChecksOut sigVerify pks r) = true := by
    intro r hr
    obtain ⟨hs, hk⟩ := hsl r hr
    have hatt : sigAttempted r = true := by
      simp [sigAttempted, truthy, hs, hk]
      exact ⟨hsignne _, hkid⟩
    have hco : sigChecksOut sigVerify pks r = true := by
      simp only [sigChecksOut, hk, Option.getD_some, hpk]
      exact hver r hr
    simp [hatt, hco]
  have hstats := verify_signature_statistics h16 sigVerify parse pks
    (st.log.map serializeAuditRecord)
  refine ⟨hver, ?_, ?_⟩
  · rw [hstats.2.1, hfm]
    exact List.countP_eq_length.mpr hclass
  · rw [hstats.2.2.2.1, hfm]
    apply List.countP_eq_zero.mpr
    intro r hr
    have := hclass r hr
    rw [Bool.and_eq_true] at this
    simp [this.1, this.2]

set_option maxRecDepth 8000 in
/-- Witness for C2 on the concrete two-record signed log: both records verify,
none is invalid. -/
theorem auditRecord_signature_sound_witness :
    (verifyLines toyH16 toySigVerify wParse toyPks
        (wSt2.log.map serializeAuditRecord)).signatureStats.verified = wSt2.log.length ∧
    (verifyLines toyH16 toySigVerify wParse toyPks
        (wSt2.log.map serializeAuditRecord)).signatureStats.invalid = 0 := by
  have hp : Produced toyH16 toySign (some toyCfg) "sess-1" wSt2 :=
    Produced.step _ sampleR6B sampleResult _
      (Produced.reload _ (Produced.step _ sampleR6A sampleResult _ Produced.init))
  have hcrypto : ∀ data,
      toySigVerify data (toySign data toyCfg.privateKeyHex) toyCfg.publicKeyHex = true := by
    intro data
    simp [toySigVerify, toySign, toyCfg]
  have hsignne : ∀ data, toySign data toyCfg.privateKeyHex ≠ "" := by
    intro data h
    have hlen := congrArg String.length h
    rw [toySign, String.length_append, String.length_append,
      String.length_append] at hlen
    have h2 : "s:".length = 2 := rfl
    have h0 : "".length = 0 := rfl
    omega
  have h := auditRecord_signature_sound toyH16 toySign toySigVerify wParse toyPks
    toyCfg "sess-1" wSt2 hp hcrypto hsignne (by decide) (by decide) (by decide)
  exact ⟨h.2.1, h.2.2⟩

/-- A list with a member is not empty. -/
theorem isEmpty_false_of_mem {α : Type} {l : List α} {e : α} (h : e ∈ l) :
    l.isEmpty = false := by
  cases l with
  | nil => simp at h
  | cons a t => rfl

set_option maxHeartbeats 1000000 in
/-- C3 (amended): take a session log produced by AuditChain.record with signing
configured and replace the line at position i by any different line l'.  Under
an instance of collision resistance — the truncated hashes of the two lines
differ — and, only when the mutated line is the final one, an instance of
unforgeability: the mutated line, if it parses at all, yields a record whose
signature and signingKeyId are truthy with the session's key id and whose
signature fails to verify (final-record mutations that damage the signature or
signingKeyId fields themselves escape detection, see the counterexample) —
verify with the session's public key supplied returns valid = false, with a
reported error that is a parse error at record i, an invalid signature at
record i, or a prev-hash mismatch at record i or i + 1.  Mutations at non-final
positions need no crypto hypothesis beyond the hash instance: the following
intact record's stored prev-hash exposes them. -/
theorem auditChain_tamper_detected (h16 : String → String)
    (sign : String → String → String) (sigVerify : String → String → String → Bool)
    (parse : String → Option AuditRecord) (pks : String → Option String)
    (cfg : SigningConfig) (sid : String) (st : ChainState)
    (hp : Produced h16 sign (some cfg) sid st) (i : Nat) (l l' : String)
    (hil : (st.log.map serializeAuditRecord)[i]? = some l)
    (hne : l' ≠ l)
    (hrt : st.log.all (fun r => parse (serializeAuditRecord r) == some r) = true)
    (hhash : h16 l' ≠ h16 l)
    (hkid : cfg.keyId ≠ "")
    (hpk : pks cfg.keyId = some cfg.publicKeyHex)
    (hkeys : i + 1 = st.log.length → (parse l').all
        (fun r' => truthy r'.signature && (r'.signingKeyId == some cfg.keyId)) = true)
    (hsigfail : i + 1 = st.log.length → (parse l').all
        (fun r' => !(sigVerify (serializeAuditRecord (stripSig r'))
          (r'.signature.getD "") cfg.publicKeyHex)) = true) :
    (verifyLines h16 sigVerify parse pks
        ((st.log.map serializeAuditRecord).set i l')).valid = false
    ∧ (parseErrorMsg i
        ∈ (verifyLines h16 sigVerify parse pks
            ((st.log.map serializeAuditRecord).set i l')).errors
      ∨ invalidSigMsg i
        ∈ (verifyLines h16 sigVerify parse pks
            ((st.log.map serializeAuditRecord).set i l')).errors
      ∨ (∃ exp got, hashMismatchMsg i exp got
          ∈ (verifyLines h16 sigVerify parse pks
              ((st.log.map serializeAuditRecord).set i l')).errors)
      ∨ (∃ exp got, hashMismatchMsg (i + 1) exp got
          ∈ (verifyLines h16 sigVerify parse pks
              ((st.log.map serializeAuditRecord).set i l')).errors)) := by
  have hlt : i < (st.log.map serializeAuditRecord).length :=
    (List.getElem?_eq_some.mp hil).1
  have hltl : i < st.log.length := by simpa using hlt
  have hl : (st.log.map serializeAuditRecord)[i] = l :=
    (List.getElem?_eq_some.mp hil).2
  have hli : l = serializeAuditRecord st.log[i] := by
    rw [← hl]
    simp
  have hrt' : ∀ r ∈ st.log, parse (serializeAuditRecord r) = some r := by
    intro r hr
    exact eq_of_beq (List.all_eq_true.mp hrt r hr)
  have hset : (st.log.map serializeAuditRecord).set i l'
      = (st.log.map serializeAuditRecord).take i
        ++ l' :: (st.log.map serializeAuditRecord).drop (i + 1) :=
    List.set_eq_take_cons_drop l' hlt
  have hAlen : ((st.log.map serializeAuditRecord).take i).length = i := by
    rw [List.length_take]
    omega
  -- the loop state after the intact prefix
  have herrs : (verifyLines h16 sigVerify parse pks
      ((st.log.map serializeAuditRecord).set i l')).errors
      = (verifyLoop h16 sigVerify parse pks 0 "genesis" [] ⟨0, 0, 0, 0⟩
          ((st.log.map serializeAuditRecord).set i l')).2.1 := rfl
  have hvalid : (verifyLines h16 sigVerify parse pks
      ((st.log.map serializeAuditRecord).set i l')).valid
      = (verifyLines h16 sigVerify parse pks
          ((st.log.map serializeAuditRecord).set i l')).errors.isEmpty := rfl
  -- membership plumbing: an error contributed by the mutated line at index i
  have hstep : ∀ msg, msg ∈ stepErrs sigVerify parse pks i
      (verifyLoop h16 sigVerify parse pks 0 "genesis" [] ⟨0, 0, 0, 0⟩
        ((st.log.map serializeAuditRecord).take i)).1 l' →
      msg ∈ (verifyLoop h16 sigVerify parse pks 0 "genesis" [] ⟨0, 0, 0, 0⟩
        ((st.log.map serializeAuditRecord).set i l')).2.1 := by
    intro msg hmsg
    rw [hset, verifyLoop_append, verifyLoop_cons]
    rw [verifyLoop_errors_acc h16 sigVerify parse pks]
    apply List.mem_append_left
    apply List.mem_append_right
    rw [Nat.zero_add, hAlen]
    exact hmsg
  -- membership plumbing: an error contributed by the following intact line
  have hstep2 : ∀ (hlast : i + 1 < (st.log.map serializeAuditRecord).length)
      (msg : String), msg ∈ stepErrs sigVerify parse pks (i + 1)
        (stepPrev h16 parse
          (verifyLoop h16 sigVerify parse pks 0 "genesis" [] ⟨0, 0, 0, 0⟩
            ((st.log.map serializeAuditRecord).take i)).1 l')
        ((st.log.map serializeAuditRecord)[i + 1]) →
      msg ∈ (verifyLoop h16 sigVerify parse pks 0 "genesis" [] ⟨0, 0, 0, 0⟩
        ((st.log.map serializeAuditRecord).set i l')).2.1 := by
    intro hlast msg hmsg
    have hB : (st.log.map serializeAuditRecord).drop (i + 1)
        = ((st.log.map serializeAuditRecord)[i + 1])
          :: (st.log.map serializeAuditRecord).drop (i + 2) :=
      List.drop_eq_getElem_cons hlast
    rw [hset, hB, verifyLoop_append, verifyLoop_cons, verifyLoop_cons]
    rw [verifyLoop_errors_acc h16 sigVerify parse pks]
    apply List.mem_append_left
    apply List.mem_append_right
    rw [Nat.zero_add, hAlen]
    exact hmsg
  have hD : parseErrorMsg i
      ∈ (verifyLines h16 sigVerify parse pks
          ((st.log.map serializeAuditRecord).set i l')).errors
      ∨ invalidSigMsg i
        ∈ (verifyLines h16 sigVerify parse pks
            ((st.log.map serializeAuditRecord).set i l')).errors
      ∨ (∃ exp got, hashMismatchMsg i exp got
          ∈ (verifyLines h16 sigVerify parse pks
              ((st.log.map serializeAuditRecord).set i l')).errors)
      ∨ (∃ exp got, hashMismatchMsg (i + 1) exp got
          ∈ (verifyLines h16 sigVerify parse pks
              ((st.log.map serializeAuditRecord).set i l')).errors) := by
    rw [herrs]
    cases hpl : parse l' with
    | none =>
        refine Or.inl (hstep _ ?_)
        simp [stepErrs, hpl]
    | some r' =>
        by_cases hprev : r'.provenance.prevRecordHash
            = (verifyLoop h16 sigVerify parse pks 0 "genesis" [] ⟨0, 0, 0, 0⟩
                ((st.log.map serializeAuditRecord).take i)).1
        · by_cases hlast : i + 1 < (st.log.map serializeAuditRecord).length
          · -- a record follows: its stored prev-hash no longer matches
            have hlast2 : i + 1 < st.log.length := by simpa using hlast
            have hl2 : (st.log.map serializeAuditRecord)[i + 1]
                = serializeAuditRecord st.log[i + 1] := by
              simp
            have hp2 : parse (serializeAuditRecord st.log[i + 1])
                = some st.log[i + 1] :=
              hrt' _ (List.getElem_mem _)
            have hlink : (st.log[i + 1]).provenance.prevRecordHash
                = h16 (serializeAuditRecord st.log[i]) := by
              refine (produced_inv h16 sign (some cfg) sid st hp).2.2 i _ _ ?_ ?_
              · exact List.getElem?_eq_getElem hltl
              · exact List.getElem?_eq_getElem hlast2
            refine Or.inr (Or.inr (Or.inr ⟨h16 l',
              (st.log[i + 1]).provenance.prevRecordHash,
              hstep2 hlast _ ?_⟩))
            have hsp : stepPrev h16 parse
                (verifyLoop h16 sigVerify parse pks 0 "genesis" [] ⟨0, 0, 0, 0⟩
                  ((st.log.map serializeAuditRecord).take i)).1 l' = h16 l' := by
              simp [stepPrev, hpl]
            rw [hsp]
            have hmm : (st.log[i + 1]).provenance.prevRecordHash
                ≠ h16 l' := by
              rw [hlink, ← hli]
              exact fun h => hhash h.symm
            simp [stepErrs, hl2, hp2, hmm]
          · -- the mutated record is the last one: its signature cannot verify
            have hfin : i + 1 = st.log.length := by
              have h2 : ¬ i + 1 < st.log.length := by simpa using hlast
              omega
            have hk := hkeys hfin
            rw [hpl] at hk
            simp only [Option.all_some, Bool.and_eq_true, beq_iff_eq] at hk
            have hsf := hsigfail hfin
            rw [hpl] at hsf
            simp only [Option.all_some, Bool.not_eq_true'] at hsf
            have hatt : sigAttempted r' = true := by
              simp only [sigAttempted, hk.2, Bool.and_eq_true]
              refine ⟨hk.1, ?_⟩
              simp [truthy, hkid]
            have hkf : sigKeyFound pks r' = true := by
              simp [sigKeyFound, hk.2, hpk]
            have hco : sigChecksOut sigVerify pks r' = false := by
              simp only [sigChecksOut, hk.2, Option.getD_some, hpk]
              exact hsf
            refine Or.inr (Or.inl (hstep _ ?_))
            simp [stepErrs, hpl, hprev, hatt, hkf, hco]
        · refine Or.inr (Or.inr (Or.inl
            ⟨(verifyLoop h16 sigVerify parse pks 0 "genesis" [] ⟨0, 0, 0, 0⟩
                ((st.log.map serializeAuditRecord).take i)).1,
             r'.provenance.prevRecordHash, hstep _ ?_⟩))
          simp [stepErrs, hpl, hprev]
  refine ⟨?_, hD⟩
  rw [hvalid]
  rcases hD with h | h | ⟨e, g, h⟩ | ⟨e, g, h⟩ <;> exact isEmpty_false_of_mem h

/-- The first sample record with one byte of its signingKeyId value changed
("KID" -> "KIX"), as JSON.parse would read the mutated line. -/
def cexKeyIdRec : AuditRecord :=
  { wRec0 with signingKeyId := some "KIX" }

/-- The mutated line: the original serialized line with exactly one byte
substituted. -/
def cexKeyIdLine : String := serializeAuditRecord cexKeyIdRec

/-- Parse table for the intact and mutated lines. -/
def cexKeyIdParse : String → Option AuditRecord :=
  parseOfList [(serializeAuditRecord wRec0, wRec0), (cexKeyIdLine, cexKeyIdRec)]

set_option maxRecDepth 8000 in
/-- Counterexample to C3 as stated: in a one-record signed log produced by
AuditChain.record, substituting a single byte inside the final record's
signingKeyId value leaves verify (with the session's public key supplied)
reporting valid = true: the chain check still passes, the record counts as
signed, and the unknown key id merely makes it unverified — no error at all. -/
theorem auditChain_tamper_counterexample :
    Produced toyH16 toySign (some toyCfg) "sess-1" wStep1.1 ∧
    wStep1.1.log.map serializeAuditRecord = [serializeAuditRecord wRec0] ∧
    cexKeyIdLine ≠ serializeAuditRecord wRec0 ∧
    cexKeyIdLine.length = (serializeAuditRecord wRec0).length ∧
    (cexKeyIdLine.data.zip (serializeAuditRecord wRec0).data).countP
      (fun q => q.1 ≠ q.2) = 1 ∧
    verifyLines toyH16 toySigVerify cexKeyIdParse toyPks
        ((wStep1.1.log.map serializeAuditRecord).set 0 cexKeyIdLine)
      = ⟨true, 1, [], ⟨1, 0, 1, 0⟩⟩ := by
  refine ⟨Produced.step _ sampleR6A sampleResult _ Produced.init, by decide, by decide,
    by decide, by decide, by decide⟩

/-- The first sample record with one byte of its target value changed, as
JSON.parse would read a line mutated inside the target field. -/
def wTamperRec : AuditRecord :=
  { wRec0 with target := some "/tmp/b.txt" }

/-- The mutated line for the witness: one byte substituted inside target. -/
def wTamperLine : String := serializeAuditRecord wTamperRec

/-- Parse table for the witness mutation. -/
def wTamperParse : String → Option AuditRecord :=
  parseOfList [(serializeAuditRecord wRec0, wRec0), (wTamperLine, wTamperRec)]

/-- The first record of the two-record log with one byte of its signingKeyId
value changed ("KID" -> "KIX"): a non-final mutation that damages a signature
field. -/
def wTamperMidRec : AuditRecord :=
  { wRec0 with signingKeyId := some "KIX" }

/-- The non-final mutated line. -/
def wTamperMidLine : String := serializeAuditRecord wTamperMidRec

/-- Parse table covering both intact lines and the non-final mutated line. -/
def wTamperMidParse : String → Option AuditRecord :=
  parseOfList [(serializeAuditRecord wRec0, wRec0), (serializeAuditRecord wRec1, wRec1),
    (wTamperMidLine, wTamperMidRec)]

set_option maxRecDepth 8000 in
/-- Witness for C3, twice over.  First on a one-record log with one byte of the
final record's target flipped (the unforgeability hypotheses bite).  Then on
the two-record log with one byte of the first record's signingKeyId flipped:
the mutation is non-final, so the unforgeability hypotheses hold vacuously and
the second record's stored prev-hash alone exposes it.  Both verifies report
valid = false. -/
theorem auditChain_tamper_detected_witness :
    wTamperLine ≠ serializeAuditRecord wRec0 ∧
    (verifyLines toyH16 toySigVerify wTamperParse toyPks
        ((wStep1.1.log.map serializeAuditRecord).set 0 wTamperLine)).valid = false ∧
    wTamperMidLine ≠ serializeAuditRecord wRec0 ∧
    (verifyLines toyH16 toySigVerify wTamperMidParse toyPks
        ((wSt2.log.map serializeAuditRecord).set 0 wTamperMidLine)).valid = false := by
  have hp : Produced toyH16 toySign (some toyCfg) "sess-1" wStep1.1 :=
    Produced.step _ sampleR6A sampleResult _ Produced.init
  have hp2 : Produced toyH16 toySign (some toyCfg) "sess-1" wSt2 :=
    Produced.step _ sampleR6B sampleResult _
      (Produced.reload _ (Produced.step _ sampleR6A sampleResult _ Produced.init))
  refine ⟨by decide, ?_, by decide, ?_⟩
  · exact (auditChain_tamper_detected toyH16 toySign toySigVerify wTamperParse toyPks
      toyCfg "sess-1" wStep1.1 hp 0 (serializeAuditRecord wRec0) wTamperLine (by decide)
      (by decide) (by decide) (by decide) (by decide) (by decide) (by decide) (by decide)).1
  · exact (auditChain_tamper_detected toyH16 toySign toySigVerify wTamperMidParse toyPks
      toyCfg "sess-1" wSt2 hp2 0 (serializeAuditRecord wRec0) wTamperMidLine (by decide)
      (by decide) (by decide) (by decide) (by decide) (by decide) (by decide) (by decide)).1

/-- The nested-quantifier regex fires on any segment
"( …no-close-paren… q ) d …" with q a quantifier and d a follow-up quantifier
(or an opening brace). -/
theorem nestedAfterParen_hit (q d : Char) (tail : List Char)
    (hq : ((q = '*' ∨ q = '+') ∧ (d = '*' ∨ d = '+' ∨ d = '?'))
        ∨ ((q = '*' ∨ q = '+' ∨ q = '?') ∧ d = '\x7b')) :
    ∀ (cs : List Char) (prev : Option Char), cs.all (fun c => c ≠ ')') = true →
      nestedAfterParen (cs ++ q :: ')' :: d :: tail) prev = true := by
  intro cs
  induction cs with
  | nil =>
      intro prev _
      simp only [List.nil_append]
      rcases hq with ⟨hq1, hd⟩ | ⟨hq1, hd⟩
      · rcases hq1 with rfl | rfl <;> rcases hd with rfl | rfl | rfl <;> rfl
      · rcases hq1 with rfl | rfl | rfl <;> (subst hd; rfl)
  | cons c cs ih =>
      intro prev hall
      simp only [List.all_cons, Bool.and_eq_true, decide_eq_true_eq] at hall
      simp only [List.cons_append, nestedAfterParen, if_neg hall.1]
      exact ih (some c) (by simpa using hall.2)

/-- C6: validateRegexPattern rejects the four concrete ReDoS patterns
(.*)+, (a+)+, (.*|.+)+ and a{1,10}{1,10} regardless of how regex compilation
behaves, rejects every pattern longer than 500 characters, rejects every
pattern the regex engine fails to compile, and rejects every pattern of the
nested-quantifier shapes (…*)+, (…+)+, (…+)* and (…+){… (for any
close-paren-free inner part and any continuation). -/
theorem validateRegexPattern_redos :
    (∀ compilesOk : String → Bool,
      (validateRegexPattern compilesOk "(.*)+").isInvalid = true ∧
      (validateRegexPattern compilesOk "(a+)+").isInvalid = true ∧
      (validateRegexPattern compilesOk "(.*|.+)+").isInvalid = true ∧
      (validateRegexPattern compilesOk "a{1,10}{1,10}").isInvalid = true) ∧
    (∀ (compilesOk : String → Bool) (pattern : String), 500 < pattern.length →
      (validateRegexPattern compilesOk pattern).isInvalid = true) ∧
    (∀ (compilesOk : String → Bool) (pattern : String), compilesOk pattern = false →
      (validateRegexPattern compilesOk pattern).isInvalid = true) ∧
    (∀ (compilesOk : String → Bool) (inner sfx : String),
      inner.data.all (fun c => c ≠ ')') = true →
      (validateRegexPattern compilesOk ("(" ++ inner ++ "*)+" ++ sfx)).isInvalid = true ∧
      (validateRegexPattern compilesOk ("(" ++ inner ++ "+)+" ++ sfx)).isInvalid = true ∧
      (validateRegexPattern compilesOk ("(" ++ inner ++ "+)*" ++ sfx)).isInvalid = true ∧
      (validateRegexPattern compilesOk ("(" ++ inner ++ "+)\x7b" ++ sfx)).isInvalid
        = true) := by
  have hscan : ∀ (inner sfx : String) (q d : Char),
      ((q = '*' ∨ q = '+') ∧ (d = '*' ∨ d = '+' ∨ d = '?'))
        ∨ ((q = '*' ∨ q = '+' ∨ q = '?') ∧ d = '\x7b') →
      inner.data.all (fun c => c ≠ ')') = true →
      nestedQuantScan ('(' :: (inner.data ++ q :: ')' :: d :: sfx.data)) = true := by
    intro inner sfx q d hq hall
    simp only [nestedQuantScan, if_pos rfl]
    rw [nestedAfterParen_hit q d sfx.data hq inner.data none hall]
    rfl
  refine ⟨?_, ?_, ?_, ?_⟩
  · intro compilesOk
    exact ⟨rfl, rfl, rfl, rfl⟩
  · intro compilesOk pattern h
    unfold validateRegexPattern
    repeat' split
    all_goals first | rfl | (exfalso; omega)
  · intro compilesOk pattern h
    unfold validateRegexPattern
    repeat' split
    all_goals first | rfl | simp_all
  · intro compilesOk inner sfx hall
    have hform : ∀ (qs : String) (q d : Char), qs.data = [q, ')', d] →
        ((q = '*' ∨ q = '+') ∧ (d = '*' ∨ d = '+' ∨ d = '?'))
          ∨ ((q = '*' ∨ q = '+' ∨ q = '?') ∧ d = '\x7b') →
        (validateRegexPattern compilesOk ("(" ++ inner ++ qs ++ sfx)).isInvalid = true := by
      intro qs q d hqs hq
      have hdata : ("(" ++ inner ++ qs ++ sfx).data
          = '(' :: (inner.data ++ q :: ')' :: d :: sfx.data) := by
        simp only [String.data_append, hqs, List.append_assoc]
        rfl
      unfold validateRegexPattern
      rw [if_pos (by rw [hdata]; exact hscan inner sfx q d hq hall)]
      rfl
    refine ⟨?_, ?_, ?_, ?_⟩
    · exact hform "*)+" '*' '+' rfl (Or.inl ⟨Or.inl rfl, Or.inr (Or.inl rfl)⟩)
    · exact hform "+)+" '+' '+' rfl (Or.inl ⟨Or.inr rfl, Or.inr (Or.inl rfl)⟩)
    · exact hform "+)*" '+' '*' rfl (Or.inl ⟨Or.inr rfl, Or.inl rfl⟩)
    · exact hform "+)\x7b" '+' '\x7b' rfl (Or.inr ⟨Or.inr (Or.inl rfl), rfl⟩)

set_option maxRecDepth 4000 in
/-- Witness for C6: a concrete over-long pattern, a concrete non-compiling
pattern, and a concrete nested-quantifier form. -/
theorem validateRegexPattern_redos_witness :
    (validateRegexPattern (fun _ => true)
        (String.mk (List.replicate 501 'a'))).isInvalid = true ∧
    (validateRegexPattern (fun _ => false) "abc").isInvalid = true ∧
    (validateRegexPattern (fun _ => true) ("(" ++ "a" ++ "*)+" ++ "")).isInvalid = true :=
  ⟨validateRegexPattern_redos.2.1 (fun _ => true) (String.mk (List.replicate 501 'a'))
      (by decide),
   validateRegexPattern_redos.2.2.1 (fun _ => false) "abc" rfl,
   (validateRegexPattern_redos.2.2.2 (fun _ => true) "a" "" (by decide)).1⟩

/-- The empty atom list matches exactly the empty string. -/
theorem ratomMatch_nil (s : List Char) : ratomMatch [] s = s.isEmpty := by
  cases s <;> simp [ratomMatch]

/-- Counterexample to C7 as stated: the spec's glob semantics says `**` matches
any run of characters including `/`, but the compiled regex fragment for `**`
is ".*" without the `s` flag, and a JS dot does not match line terminators:
on the string "a\nb" the pattern "**" fails in the code while the
spec-described matcher succeeds. -/
theorem globToRegex_newline_counterexample :
    globMatches "**" "a\nb" = false ∧ specGlobMatches "**" "a\nb" = true := by
  constructor
  · simp [globMatches, globAtoms, ratomMatch, isLineTerminator, dropLeadSlash]
  · simp [specGlobMatches, specGlobMatch, dropLeadSlash]

/-- The compiled glob regex agrees with the spec-described glob matcher, with
the `**` case amended to exclude JS line terminators, at every size bound. -/
theorem globAtoms_spec : ∀ (n : Nat) (p s : List Char), p.length + s.length ≤ n →
    ratomMatch (globAtoms p) s = specGlobMatchJs p s := by
  intro n
  induction n with
  | zero =>
      intro p s hlen
      have h1 : p.length = 0 := by omega
      have h2 : s.length = 0 := by omega
      rw [List.length_eq_zero] at h1 h2
      subst h1; subst h2
      simp [globAtoms, ratomMatch, specGlobMatchJs]
  | succ n ih =>
      intro p s hlen
      cases p with
      | nil =>
          have h0 : globAtoms [] = [] := by simp [globAtoms]
          rw [h0, ratomMatch_nil]
          simp [specGlobMatchJs]
      | cons c pr =>
          cases pr with
          | nil =>
              by_cases hc : c = '*'
              · subst hc
                cases s with
                | nil => simp [globAtoms, ratomMatch, specGlobMatchJs]
                | cons x xs =>
                    have hxs := ih ['*'] xs (by simp at hlen ⊢; omega)
                    simp [globAtoms, ratomMatch, specGlobMatchJs] at hxs ⊢
                    rw [hxs]
              · by_cases hq : c = '?'
                · subst hq
                  cases s with
                  | nil => simp [globAtoms, ratomMatch, specGlobMatchJs]
                  | cons x xs =>
                      simp [globAtoms, ratomMatch, specGlobMatchJs, ratomMatch_nil]
                · cases s with
                  | nil => simp [globAtoms, ratomMatch, specGlobMatchJs, hc, hq]
                  | cons x xs =>
                      simp [globAtoms, ratomMatch, specGlobMatchJs, ratomMatch_nil, hc, hq]
          | cons c2 pr2 =>
              by_cases hc : c = '*'
              · subst hc
                by_cases hc2 : c2 = '*'
                · subst hc2
                  cases s with
                  | nil =>
                      have hd := ih (dropLeadSlash pr2) []
                        (by have := dropLeadSlash_length_le pr2; simp at hlen ⊢; omega)
                      simp [globAtoms, ratomMatch, specGlobMatchJs] at hd ⊢
                      rw [hd]
                  | cons x xs =>
                      have hd := ih (dropLeadSlash pr2) (x :: xs)
                        (by have := dropLeadSlash_length_le pr2; simp at hlen ⊢; omega)
                      have hxs := ih ('*' :: '*' :: pr2) xs (by simp at hlen ⊢; omega)
                      simp [globAtoms, ratomMatch, specGlobMatchJs] at hd hxs ⊢
                      rw [hd, hxs]
                · cases s with
                  | nil =>
                      have hp := ih (c2 :: pr2) [] (by simp at hlen ⊢; omega)
                      simp [globAtoms, ratomMatch, specGlobMatchJs, hc2] at hp ⊢
                      rw [hp]
                  | cons x xs =>
                      have hp := ih (c2 :: pr2) (x :: xs) (by simp at hlen ⊢; omega)
                      have hxs := ih ('*' :: c2 :: pr2) xs (by simp at hlen ⊢; omega)
                      simp [globAtoms, ratomMatch, specGlobMatchJs, hc2] at hp hxs ⊢
                      rw [hp, hxs]
              · by_cases hq : c = '?'
                · subst hq
                  cases s with
                  | nil => simp [globAtoms, ratomMatch, specGlobMatchJs, hc]
                  | cons x xs =>
                      have hp := ih (c2 :: pr2) xs (by simp at hlen ⊢; omega)
                      simp [globAtoms, ratomMatch, specGlobMatchJs, hc] at hp ⊢
                      rw [hp]
                · cases s with
                  | nil => simp [globAtoms, ratomMatch, specGlobMatchJs, hc, hq]
                  | cons x xs =>
                      have hp := ih (c2 :: pr2) xs (by simp at hlen ⊢; omega)
                      simp [globAtoms, ratomMatch, specGlobMatchJs, hc, hq] at hp ⊢
                      rw [hp]

/-- C7 (amended): globToRegex(p).test(s) agrees, for every pattern and string,
with the spec-described anchored glob semantics amended in one point: the `**`
run excludes the JS line terminators (\n, \r, U+2028, U+2029), because the
compiled fragment ".*" is dot-based and the regex is built without the `s`
flag.  `?` and `*` compile to the negated class [^/] and keep the spec's
semantics exactly; metacharacters are literal; matching is full-string
anchored. -/
theorem globToRegex_spec (p s : String) : globMatches p s = specGlobMatchesJs p s := by
  unfold globMatches specGlobMatchesJs
  exact globAtoms_spec (p.data.length + s.data.length) p.data s.data (le_refl _)

/-
  Serialized audit records contain no newline, so the log file — a
  concatenation of `line ++ "\n"` — corresponds exactly to the list of
  serialized records, justifying the List-of-lines file model.
-/

/-- A string free of newline characters. -/
def NoNewline (s : String) : Prop :=
  ∀ x ∈ s.data, x ≠ '\n'

theorem noNewline_append (a b : String) (ha : NoNewline a) (hb : NoNewline b) :
    NoNewline (a ++ b) := by
  intro x hx
  rw [String.data_append] at hx
  rcases List.mem_append.mp hx with h | h
  · exact ha x h
  · exact hb x h

theorem noNewline_of_all (s : String) (h : s.data.all (fun c => c ≠ '\n') = true) :
    NoNewline s := by
  intro x hx
  exact of_decide_eq_true (List.all_eq_true.mp h x hx)

theorem escChar_no_newline (c : Char) : ∀ x ∈ escChar c, x ≠ '\n' := by
  unfold escChar
  split
  · decide
  · split
    · decide
    · split
      · decide
      · split
        · decide
        · split
          · decide
          · split
            · decide
            · split
              · decide
              · split
                · intro x hx
                  have hd : ∀ k, k < 16 → hexDigitChar k ≠ '\n' := by decide
                  simp only [List.mem_cons] at hx
                  rcases hx with rfl | rfl | rfl | rfl | rfl | rfl | hx
                  · decide
                  · decide
                  · decide
                  · decide
                  · exact hd _ (by omega)
                  · exact hd _ (by omega)
                  · simp at hx
                · intro x hx
                  simp only [List.mem_singleton] at hx
                  subst hx
                  assumption

theorem jsonEscape_no_newline (s : String) : NoNewline (jsonEscape s) := by
  have h : ∀ cs : List Char,
      ∀ x ∈ cs.foldr (fun c acc => escChar c ++ acc) [], x ≠ '\n' := by
    intro cs
    induction cs with
    | nil => intro x hx; simp at hx
    | cons c cs ih =>
        intro x hx
        rcases List.mem_append.mp (by simpa using hx) with h | h
        · exact escChar_no_newline c x h
        · exact ih x h
  intro x hx
  exact h s.data x hx

theorem jsonStr_no_newline (s : String) : NoNewline (jsonStr s) := by
  unfold jsonStr
  refine noNewline_append _ _ (noNewline_append _ _ ?_ (jsonEscape_no_newline s)) ?_
  · exact noNewline_of_all _ (by decide)
  · exact noNewline_of_all _ (by decide)

theorem natStr_no_newline (n : Nat) : NoNewline (natStr n) := by
  have hd : ∀ (fuel m : Nat), ∀ x ∈ natDigitsAux fuel m, x ≠ '\n' := by
    intro fuel
    induction fuel with
    | zero => intro m x hx; simp [natDigitsAux] at hx
    | succ fuel ih =>
        intro m x hx
        unfold natDigitsAux at hx
        split at hx
        · simp only [List.mem_singleton] at hx
          subst hx
          have hm : m < 10 := by assumption
          have hk : ∀ k, k < 10 → decDigit k ≠ '\n' := by decide
          exact hk _ hm
        · rcases List.mem_append.mp hx with h | h
          · exact ih _ x h
          · simp only [List.mem_singleton] at h
            subst h
            show decDigit (m % 10) ≠ '\n'
            have h10 : m % 10 < 10 := Nat.mod_lt _ (by omega)
            have : ∀ k, k < 10 → decDigit k ≠ '\n' := by decide
            exact this _ h10
  intro x hx
  exact hd (n + 1) n x hx

theorem joinComma_no_newline (l : List String) (h : ∀ s ∈ l, NoNewline s) :
    NoNewline (joinComma l) := by
  induction l with
  | nil =>
      show NoNewline ""
      exact noNewline_of_all _ (by decide)
  | cons s rest ih =>
      cases rest with
      | nil => simpa [joinComma] using h s (by simp)
      | cons t ts =>
          show NoNewline (s ++ "," ++ joinComma (t :: ts))
          repeat' apply noNewline_append
          · exact h s (by simp)
          · exact noNewline_of_all _ (by decide)
          · exact ih (fun u hu => h u (by simp [hu]))

theorem optStrField_no_newline (name : String) (v : Option String) :
    NoNewline (optStrField name v) := by
  cases v with
  | none =>
      show NoNewline ""
      exact noNewline_of_all _ (by decide)
  | some s =>
      show NoNewline ("," ++ jsonStr name ++ ":" ++ jsonStr s)
      repeat' apply noNewline_append
      all_goals first
        | exact jsonStr_no_newline _
        | exact jsonEscape_no_newline _
        | exact noNewline_of_all _ (by decide)

theorem optNatField_no_newline (name : String) (v : Option Nat) :
    NoNewline (optNatField name v) := by
  cases v with
  | none =>
      show NoNewline ""
      exact noNewline_of_all _ (by decide)
  | some n =>
      show NoNewline ("," ++ jsonStr name ++ ":" ++ natStr n)
      repeat' apply noNewline_append
      all_goals first
        | exact jsonStr_no_newline _
        | exact jsonEscape_no_newline _
        | exact natStr_no_newline _
        | exact noNewline_of_all _ (by decide)

theorem optListField_no_newline (name : String) (v : Option (List String)) :
    NoNewline (optListField name v) := by
  cases v with
  | none =>
      show NoNewline ""
      exact noNewline_of_all _ (by decide)
  | some l =>
      show NoNewline ("," ++ jsonStr name ++ ":[" ++ joinComma (l.map jsonStr) ++ "]")
      repeat' apply noNewline_append
      all_goals first
        | exact jsonStr_no_newline _
        | exact jsonEscape_no_newline _
        | (refine joinComma_no_newline _ ?_
           intro s hs
           rcases List.mem_map.mp hs with ⟨t, _, rfl⟩
           exact jsonStr_no_newline t)
        | exact noNewline_of_all _ (by decide)

theorem serializeAuditResult_no_newline (r : AuditResult) :
    NoNewline (serializeAuditResult r) := by
  unfold serializeAuditResult
  repeat' apply noNewline_append
  all_goals first
    | exact jsonStr_no_newline _
    | exact jsonEscape_no_newline _
    | exact optStrField_no_newline _ _
    | exact optNatField_no_newline _ _
    | exact noNewline_of_all _ (by decide)

theorem serializeProvenance_no_newline (p : AuditProvenance) :
    NoNewline (serializeProvenance p) := by
  unfold serializeProvenance
  repeat' apply noNewline_append
  all_goals first
    | exact jsonStr_no_newline _
    | exact jsonEscape_no_newline _
    | exact natStr_no_newline _
    | exact noNewline_of_all _ (by decide)

/-- Serialized audit records contain no newline: appending `line + "\n"` per
record keeps the log file and the list of serialized records in exact
correspondence. -/
theorem serializeAuditRecord_no_newline (r : AuditRecord) :
    NoNewline (serializeAuditRecord r) := by
  unfold serializeAuditRecord
  repeat' apply noNewline_append
  all_goals first
    | exact jsonStr_no_newline _
    | exact jsonEscape_no_newline _
    | exact optStrField_no_newline _ _
    | exact optNatField_no_newline _ _
    | exact optListField_no_newline _ _
    | exact natStr_no_newline _
    | exact serializeAuditResult_no_newline _
    | exact serializeProvenance_no_newline _
    | exact noNewline_of_all _ (by decide)
